import Mathlib

/-!
# Aleph One file handler: container unwrapping and file type detection

A shallow embedding of `Source_Files/Misc/FileHandler_SDL.cpp`:
`is_applesingle`, `is_macbinary`, the `OpenedFile` cursor operations,
`FileSpecifier::Open` and `FileSpecifier::GetType`.

Conventions of the embedding.

* A byte is a natural number; every read reduces it modulo 256.
* `uint32`/`uint16` values are naturals below `2^32`/`2^16`; `int32` and `int` values
  are integers in the 32-bit range, `long` values are integers.  `toInt32` is the
  conversion `uint32 → int32`, `wrap32` the conversion of a `long` to `int`, and `add32`
  is `int32 + int32` with two's-complement wrap-around.  `long` is taken wide enough
  for every sum formed here.
* The SDL stream functions are library code, those of SDL 1.2: the offset that
  `SDL_RWseek` takes and the position that it and `SDL_RWtell` return are `int`.  They
  are modelled on a stream that holds the bytes of the file and a cursor; the file has
  at most `2^31 - 128` bytes, so that every position in it, and every position up to 128
  bytes past its end, is an `int`.  A seek to a negative position fails and leaves the
  cursor where it was; a seek past the end of the file succeeds.  A read that runs into
  the end of the file transfers the bytes that are there, leaves the cursor at the end
  of the file, and leaves the rest of the destination buffer as it was.
* What a buffer held before a read is not a matter of the source.  The model gives it as
  `fill k`, the byte at index `k` of the buffer, the same for every read of a stream;
  what is proved of reads that cross the end of the file holds under that reading only.
-/

namespace AlephOne

/-! ## SDL streams -/

/-- An open `SDL_RWops` stream over a file. -/
structure SDL_RWops where
  /-- The bytes of the file. -/
  data : List Nat
  /-- What a destination buffer holds where a short read leaves it unwritten. -/
  fill : Nat → Nat
  /-- The cursor. -/
  pos : Nat
  /-- The file is small enough for `int` offsets: every position in it, and every position
  up to 128 bytes past its end, is an `int`. -/
  small : data.length + 128 ≤ 2147483648 := by decide

/-- The third argument of `SDL_RWseek`. -/
inductive Whence where
  | SEEK_SET
  | SEEK_CUR
  | SEEK_END
  deriving DecidableEq, Repr

open Whence

/-- Byte `k` of the destination buffer after a read at the cursor. -/
def SDL_RWops.byte (f : SDL_RWops) (k : Nat) : Nat :=
  f.data.getD (f.pos + k) (f.fill k) % 256

/-- The stream after a read of `n` bytes: the cursor stops at the end of the file. -/
def SDL_RWops.advance (f : SDL_RWops) (n : Nat) : SDL_RWops :=
  { f with pos := if f.pos + n ≤ f.data.length then f.pos + n else max f.pos f.data.length }

/-- The value of an integer once stored in an `int32` or an `int`. -/
def wrap32 (x : Int) : Int := (x + 2147483648) % 4294967296 - 2147483648

/-- The call `SDL_RWseek(f, offset, whence)`: the new position, or `-1` and an unmoved
cursor.  The parameter `offset` is an `int`, and so is the position returned. -/
def SDL_RWseek (f : SDL_RWops) (offset : Int) (whence : Whence) : Int × SDL_RWops :=
  let offset := wrap32 offset
  let base : Int :=
    match whence with
    | SEEK_SET => 0
    | SEEK_CUR => f.pos
    | SEEK_END => f.data.length
  if base + offset < 0 then (-1, f)
  else (wrap32 (base + offset), { f with pos := (base + offset).toNat })

/-- The call `SDL_RWtell(f)`: the position of the cursor, an `int`. -/
def SDL_RWtell (f : SDL_RWops) : Int := wrap32 f.pos

/-- The call `SDL_RWread(f, buffer, 1, n)`: the buffer afterwards, and the stream. -/
def SDL_RWread (f : SDL_RWops) (n : Nat) : List Nat × SDL_RWops :=
  ((List.range n).map f.byte, f.advance n)

/-- The call `SDL_ReadBE16(f)`. -/
def SDL_ReadBE16 (f : SDL_RWops) : Nat × SDL_RWops :=
  (f.byte 0 * 256 + f.byte 1, f.advance 2)

/-- The call `SDL_ReadBE32(f)`. -/
def SDL_ReadBE32 (f : SDL_RWops) : Nat × SDL_RWops :=
  (f.byte 0 * 16777216 + f.byte 1 * 65536 + f.byte 2 * 256 + f.byte 3, f.advance 4)

/-! ## Machine integers and constants of `cseries.h` / `tags.h` -/

/-- Conversion of a `uint32` to `int32`. -/
def toInt32 (n : Nat) : Int := wrap32 n

/-- Addition of two `int32` values. -/
def add32 (a b : Int) : Int := wrap32 (a + b)

/-- Modelled from the spec: the macro `NONE` of `cseries.h`, which is not in the source
tree; the spec describes the sentinel as the all-ones, `-1` marker of a signed 32-bit field. -/
def NONE : Int := -1

/-- Modelled from the spec: the macro `FOUR_CHARS_TO_INT` of `cseries.h`, which is not in
the source tree; the spec describes a tag as four ASCII characters packed into a 32-bit
big-endian integer. -/
def FOUR_CHARS_TO_INT (a b c d : Char) : Nat :=
  a.toNat * 16777216 + b.toNat * 65536 + c.toNat * 256 + d.toNat

/-- Modelled from the spec: the values `GetType` returns.  The `_typecode_` constants of
`tags.h` are not in the source tree; the spec lists the kinds as an enumeration of
distinct values, `NONE` being the unrecognized one. -/
inductive Typecode where
  | NONE
  | _typecode_scenario
  | _typecode_physics
  | _typecode_shapes
  | _typecode_sounds
  deriving DecidableEq, Repr

open Typecode (_typecode_scenario _typecode_physics _typecode_shapes _typecode_sounds)

/-- The value `errno` holds after a failed seek. -/
def EINVAL : Int := 22

/-! ## Utility functions -/

/-- The loop `while (num_entries--)` of `is_applesingle`. -/
def is_applesingle.find (req_id : Nat) : Nat → SDL_RWops → Option (Int × Int) × SDL_RWops
  | 0, f => (none, f)
  | num_entries + 1, f =>
    let r := SDL_ReadBE32 f
    let id := r.1
    let r := SDL_ReadBE32 r.2
    let ofs := toInt32 r.1
    let r := SDL_ReadBE32 r.2
    let len := toInt32 r.1
    if id = req_id then (some (ofs, len), r.2) else is_applesingle.find req_id num_entries r.2

/-- The function `is_applesingle`: `some (offset, length)` when it returns true, having
stored the two values; `none` when it returns false. -/
def is_applesingle (f : SDL_RWops) (rsrc_fork : Bool) : Option (Int × Int) × SDL_RWops :=
  let f := (SDL_RWseek f 0 SEEK_SET).2
  let r := SDL_ReadBE32 f
  let id := r.1
  let r := SDL_ReadBE32 r.2
  let version := r.1
  if id ≠ 0x00051600 ∨ version ≠ 0x00020000 then (none, r.2)
  else
    let req_id := if rsrc_fork then 2 else 1
    let f := (SDL_RWseek r.2 0x18 SEEK_SET).2
    let r := SDL_ReadBE16 f
    is_applesingle.find req_id r.1 r.2

/-- One turn of the inner loop of the CRC: the new `(data, crc)`, both `uint16`. -/
def is_macbinary.crc_bit (s : Nat × Nat) : Nat × Nat :=
  let data := s.1
  let crc := s.2
  ((data <<< 1) % 65536,
   if (data ^^^ crc) &&& 0x8000 ≠ 0 then ((crc <<< 1) ^^^ 0x1021) % 65536 else (crc <<< 1) % 65536)

/-- One turn of the outer loop of the CRC, for one header byte. -/
def is_macbinary.crc_byte (crc : Nat) (b : Nat) : Nat :=
  (is_macbinary.crc_bit^[8] ((b <<< 8) % 65536, crc)).2

/-- The CRC loop of `is_macbinary` over `header[0..123]`. -/
def is_macbinary.crc (header : List Nat) : Nat :=
  (header.take 124).foldl is_macbinary.crc_byte 0

/-- The function `is_macbinary`: `some (data_length, rsrc_length)` when it returns true,
`none` when it returns false. -/
def is_macbinary (f : SDL_RWops) : Option (Int × Int) × SDL_RWops :=
  let f := (SDL_RWseek f 0 SEEK_SET).2
  let r := SDL_RWread f 128
  let header := fun i => r.1.getD i 0
  if header 0 ≠ 0 ∨ header 1 > 63 ∨ header 74 ≠ 0 ∨ header 122 < 0x81 ∨ header 123 < 0x81 then
    (none, r.2)
  else if is_macbinary.crc r.1 ≠ ((header 124 <<< 8) ||| header 125) then (none, r.2)
  else
    (some (toInt32 ((header 83 <<< 24) ||| (header 84 <<< 16) ||| (header 85 <<< 8) ||| header 86),
           toInt32 ((header 87 <<< 24) ||| (header 88 <<< 16) ||| (header 89 <<< 8) ||| header 90)),
     r.2)

/-! ## Opened file -/

/-- The class `OpenedFile`; `f` is `none` for the null pointer. -/
structure OpenedFile where
  f : Option SDL_RWops
  err : Int
  is_forked : Bool
  fork_offset : Int
  fork_length : Int

/-- The constructor `OpenedFile::OpenedFile()`. -/
def OpenedFile.new : OpenedFile :=
  { f := none, err := 0, is_forked := false, fork_offset := 0, fork_length := 0 }

/-- The method `OpenedFile::IsOpen`. -/
def OpenedFile.IsOpen (o : OpenedFile) : Bool := o.f.isSome

/-- The method `OpenedFile::Close`. -/
def OpenedFile.Close (o : OpenedFile) : Bool × OpenedFile :=
  match o.f with
  | some _ => (true, { o with f := none, err := 0 })
  | none => (true, o)

/-- The method `OpenedFile::GetPosition`: the result, `Position` afterwards, the object. -/
def OpenedFile.GetPosition (o : OpenedFile) (Position : Int) : Bool × Int × OpenedFile :=
  match o.f with
  | none => (false, Position, o)
  | some p => (true, SDL_RWtell p - o.fork_offset, { o with err := 0 })

/-- The method `OpenedFile::SetPosition`. -/
def OpenedFile.SetPosition (o : OpenedFile) (Position : Int) : Bool × OpenedFile :=
  match o.f with
  | none => (false, o)
  | some p =>
    let r := SDL_RWseek p (Position + o.fork_offset) SEEK_SET
    let err := if r.1 < 0 then EINVAL else 0
    (err == 0, { o with f := some r.2, err := err })

/-- The method `OpenedFile::GetLength`: the result, `Length` afterwards, the object. -/
def OpenedFile.GetLength (o : OpenedFile) (Length : Int) : Bool × Int × OpenedFile :=
  match o.f with
  | none => (false, Length, o)
  | some p =>
    if o.is_forked then (true, o.fork_length, { o with err := 0 })
    else
      let pos := SDL_RWtell p
      let p := (SDL_RWseek p 0 SEEK_END).2
      let Length := SDL_RWtell p
      let p := (SDL_RWseek p pos SEEK_SET).2
      (true, Length, { o with f := some p, err := 0 })

/-- An SDL read on `p = f.GetRWops()`: `p` and `f` share the stream, so the read moves
the cursor of `f`. -/
def OpenedFile.onRWops (o : OpenedFile) (read : SDL_RWops → Nat × SDL_RWops) :
    Nat × OpenedFile :=
  match o.f with
  | none => (0, o)
  | some p => ((read p).1, { o with f := some (read p).2 })

/-- The call `SDL_RWseek(p, n, SEEK_CUR)` on `p = f.GetRWops()`. -/
def OpenedFile.skip (o : OpenedFile) (n : Nat) : OpenedFile :=
  match o.f with
  | none => o
  | some p => { o with f := some (SDL_RWseek p n SEEK_CUR).2 }

/-! ## File specification -/

/-- The method `FileSpecifier::Open(OpenedFile &, bool Writable)`.  `file` is what
`SDL_RWFromFile` returns for the name: `none` for the null pointer. -/
def FileSpecifier.Open (file : Option SDL_RWops) (OFile : OpenedFile) (Writable : Bool) :
    Bool × OpenedFile :=
  let OFile := (OFile.Close).2
  let OFile := { OFile with is_forked := false, fork_offset := 0, fork_length := 0, f := file }
  match file with
  | none => (false, OFile)
  | some f =>
    if Writable then (true, OFile)
    else
      let a := is_applesingle f false
      match a.1 with
      | some (offset, data_length) =>
        (true, { OFile with
                  is_forked := true, fork_offset := offset, fork_length := data_length,
                  f := some (SDL_RWseek a.2 offset SEEK_SET).2 })
      | none =>
        let m := is_macbinary a.2
        match m.1 with
        | some (data_length, _) =>
          (true, { OFile with
                    is_forked := true, fork_offset := 128, fork_length := data_length,
                    f := some (SDL_RWseek m.2 128 SEEK_SET).2 })
        | none => (true, { OFile with f := some (SDL_RWseek m.2 0 SEEK_SET).2 })

/-- The block `// Check for Sounds file` of `GetType`. -/
def FileSpecifier.GetType.sounds (f : OpenedFile) : Option Typecode × OpenedFile :=
  let f := (f.SetPosition 0).2
  let r := f.onRWops SDL_ReadBE32
  let version := r.1
  let r := r.2.onRWops SDL_ReadBE32
  let tag := r.1
  if version = 1 ∧ tag = FOUR_CHARS_TO_INT 's' 'n' 'd' '2' then (some _typecode_sounds, r.2)
  else (none, r.2)

/-- The block `// Check for Map/Physics file` of `GetType`. -/
def FileSpecifier.GetType.map (f : OpenedFile) (file_length : Int) :
    Option Typecode × OpenedFile :=
  let f := (f.SetPosition 0).2
  let r := f.onRWops SDL_ReadBE16
  let version := r.1
  let r := r.2.onRWops SDL_ReadBE16
  let data_version := r.1
  if (version = 0 ∨ version = 1 ∨ version = 2 ∨ version = 4)
      ∧ (data_version = 0 ∨ data_version = 1 ∨ data_version = 2) then
    let f := r.2.skip 68
    let r := f.onRWops SDL_ReadBE32
    let directory_offset := toInt32 r.1
    if directory_offset ≥ file_length then (none, r.2)
    else
      let f := (r.2.SetPosition 128).2
      let r := f.onRWops SDL_ReadBE32
      let tag := r.1
      if tag = FOUR_CHARS_TO_INT 'L' 'I' 'N' 'S' ∨ tag = FOUR_CHARS_TO_INT 'P' 'N' 'T' 'S' then
        (some _typecode_scenario, r.2)
      else if tag = FOUR_CHARS_TO_INT 'M' 'N' 'p' 'x' then (some _typecode_physics, r.2)
      else (none, r.2)
  else (none, r.2)

/-- The loop `for (int i=0; i<32; i++)` of the Shapes block, with `n` turns left: true
when the loop runs to its end, false when it leaves through `goto not_shapes`. -/
def FileSpecifier.GetType.shapes_loop (file_length : Int) :
    Nat → OpenedFile → Bool × OpenedFile
  | 0, f => (true, f)
  | n + 1, f =>
    let r := f.onRWops SDL_ReadBE32
    let status_flags := r.1
    let r := r.2.onRWops SDL_ReadBE32
    let offset := toInt32 r.1
    let r := r.2.onRWops SDL_ReadBE32
    let length := toInt32 r.1
    let r := r.2.onRWops SDL_ReadBE32
    let offset16 := toInt32 r.1
    let r := r.2.onRWops SDL_ReadBE32
    let length16 := toInt32 r.1
    if status_flags ≠ 0
        ∨ (offset ≠ NONE ∧ (offset ≥ file_length ∨ add32 offset length > file_length))
        ∨ (offset16 ≠ NONE ∧ (offset16 ≥ file_length ∨ add32 offset16 length16 > file_length)) then
      (false, r.2)
    else FileSpecifier.GetType.shapes_loop file_length n (r.2.skip 12)

/-- The block `// Check for Shapes file` of `GetType`. -/
def FileSpecifier.GetType.shapes (f : OpenedFile) (file_length : Int) :
    Option Typecode × OpenedFile :=
  let f := (f.SetPosition 0).2
  let r := FileSpecifier.GetType.shapes_loop file_length 32 f
  if r.1 then (some _typecode_shapes, r.2) else (none, r.2)

/-- The method `FileSpecifier::GetType`. -/
def FileSpecifier.GetType (file : Option SDL_RWops) : Typecode :=
  let o := FileSpecifier.Open file OpenedFile.new false
  if !o.1 then Typecode.NONE
  else
    let f := o.2
    let file_length := (f.GetLength 0).2.1
    let f := (f.GetLength 0).2.2
    let s := FileSpecifier.GetType.sounds f
    match s.1 with
    | some t => t
    | none =>
      let m := FileSpecifier.GetType.map s.2 file_length
      match m.1 with
      | some t => t
      | none =>
        let h := FileSpecifier.GetType.shapes m.2 file_length
        match h.1 with
        | some t => t
        | none => Typecode.NONE

/-! ## The read window and the sniffer over it

The window of an opened file is the part of the stream that starts at the fork offset.
Offset `i` of the window is position `fork_offset + i` of the stream, so the statements
about windows are made for fork offsets that are not negative, as the data model has them.
`Sniffer.sounds`, `Sniffer.map` and `Sniffer.shapes` are the three passes written on the
reads of a window at fixed offsets; `GetType_eq_classify` relates them to the code. -/

/-- What `SDL_ReadBE16` yields with the cursor at `i`. -/
def SDL_RWops.be16 (p : SDL_RWops) (i : Nat) : Nat := (SDL_ReadBE16 { p with pos := i }).1

/-- What `SDL_ReadBE32` yields with the cursor at `i`. -/
def SDL_RWops.be32 (p : SDL_RWops) (i : Nat) : Nat := (SDL_ReadBE32 { p with pos := i }).1

/-- A read window: what a big-endian 16-bit and 32-bit read at an offset of the window
yields, and the length of the window. -/
structure Window where
  be16 : Nat → Nat
  be32 : Nat → Nat
  file_length : Int

/-- The window of stream `p` that starts at position `offset`. -/
def SDL_RWops.window (p : SDL_RWops) (offset : Nat) (file_length : Int) : Window :=
  { be16 := fun i => p.be16 (offset + i), be32 := fun i => p.be32 (offset + i),
    file_length := file_length }

/-- The Sounds pass on a window. -/
def Sniffer.sounds (w : Window) : Bool :=
  decide (w.be32 0 = 1 ∧ w.be32 4 = FOUR_CHARS_TO_INT 's' 'n' 'd' '2')

/-- The version gate of the Map/Physics pass. -/
def Sniffer.gate (w : Window) : Bool :=
  decide ((w.be16 0 = 0 ∨ w.be16 0 = 1 ∨ w.be16 0 = 2 ∨ w.be16 0 = 4)
    ∧ (w.be16 2 = 0 ∨ w.be16 2 = 1 ∨ w.be16 2 = 2))

/-- The field `directory_offset` of a window. -/
def Sniffer.directory_offset (w : Window) : Int := toInt32 (w.be32 72)

/-- The Map/Physics pass on a window. -/
def Sniffer.map (w : Window) : Option Typecode :=
  if Sniffer.gate w then
    if Sniffer.directory_offset w ≥ w.file_length then none
    else if w.be32 128 = FOUR_CHARS_TO_INT 'L' 'I' 'N' 'S'
        ∨ w.be32 128 = FOUR_CHARS_TO_INT 'P' 'N' 'T' 'S' then some _typecode_scenario
    else if w.be32 128 = FOUR_CHARS_TO_INT 'M' 'N' 'p' 'x' then some _typecode_physics
    else none
  else none

/-- The field `status_flags` of record `i` of a window. -/
def Sniffer.status_flags (w : Window) (i : Nat) : Nat := w.be32 (32 * i)

/-- The field `offset` of record `i` of a window. -/
def Sniffer.offset (w : Window) (i : Nat) : Int := toInt32 (w.be32 (32 * i + 4))

/-- The field `length` of record `i` of a window. -/
def Sniffer.length (w : Window) (i : Nat) : Int := toInt32 (w.be32 (32 * i + 8))

/-- The field `offset16` of record `i` of a window. -/
def Sniffer.offset16 (w : Window) (i : Nat) : Int := toInt32 (w.be32 (32 * i + 12))

/-- The field `length16` of record `i` of a window. -/
def Sniffer.length16 (w : Window) (i : Nat) : Int := toInt32 (w.be32 (32 * i + 16))

/-- The test one turn of the Shapes loop makes on record `i`. -/
def Sniffer.record_ok (w : Window) (i : Nat) : Bool :=
  decide (Sniffer.status_flags w i = 0
    ∧ (Sniffer.offset w i = NONE
        ∨ (Sniffer.offset w i < w.file_length
            ∧ add32 (Sniffer.offset w i) (Sniffer.length w i) ≤ w.file_length))
    ∧ (Sniffer.offset16 w i = NONE
        ∨ (Sniffer.offset16 w i < w.file_length
            ∧ add32 (Sniffer.offset16 w i) (Sniffer.length16 w i) ≤ w.file_length)))

/-- The Shapes pass on a window. -/
def Sniffer.shapes (w : Window) : Bool := (List.range 32).all (Sniffer.record_ok w)

/-- The three passes in their order. -/
def Sniffer.classify (w : Window) : Typecode :=
  if Sniffer.sounds w then _typecode_sounds
  else
    match Sniffer.map w with
    | some t => t
    | none => if Sniffer.shapes w then _typecode_shapes else Typecode.NONE

/-- A pair of record fields is in bounds, the sum being a sum of integers. -/
def in_bounds (offset length file_length : Int) : Prop :=
  offset < file_length ∧ offset + length ≤ file_length

instance (offset length file_length : Int) : Decidable (in_bounds offset length file_length) := by
  unfold in_bounds
  infer_instance

/-- The opened file `GetType` works on. -/
def unwrap (p : SDL_RWops) : OpenedFile := (FileSpecifier.Open (some p) OpenedFile.new false).2

/-- The value `file_length` of `GetType`. -/
def file_length (p : SDL_RWops) : Int := ((unwrap p).GetLength 0).2.1

/-- The window `Open` establishes on stream `p`. -/
def window (p : SDL_RWops) : Window :=
  p.window (unwrap p).fork_offset.toNat (file_length p)

/-! ## Cursor bookkeeping -/

/-- Stream `q` is stream `p` with the cursor at `i`, or with both past the end of the file. -/
def At (p q : SDL_RWops) (i : Nat) : Prop :=
  q.data = p.data ∧ q.fill = p.fill ∧ (q.pos = i ∨ (p.data.length ≤ q.pos ∧ p.data.length ≤ i))

/-- The opened file `g` has fork offset `o`, and its stream is `p` with the cursor at `i`. -/
def OverAt (p : SDL_RWops) (o : Int) (g : OpenedFile) (i : Nat) : Prop :=
  g.fork_offset = o ∧ ∃ q, g.f = some q ∧ At p q i

/-- The opened file `g` has fork offset `o`, and its stream is `p` with the cursor anywhere. -/
def Over (p : SDL_RWops) (o : Int) (g : OpenedFile) : Prop :=
  g.fork_offset = o ∧ ∃ q, g.f = some q ∧ q.data = p.data ∧ q.fill = p.fill

/-! ## Sample files -/

set_option maxRecDepth 100000 in
/-- A plain file of 130 bytes: a sound bank signature, then 122 bytes `AB`. -/
def sounds_file : SDL_RWops :=
  { data := [0, 0, 0, 1, 0x73, 0x6E, 0x64, 0x32] ++ List.replicate 122 0xAB,
    fill := fun _ => 0, pos := 0 }

set_option maxRecDepth 100000 in
/-- An AppleSingle file whose data fork entry has offset `0xFFFFFFFF` and length 4096.  The
entry table ends at position 38; a map header with tag `PNTS` starts at position 46. -/
def negative_offset_file : SDL_RWops :=
  { data :=
      [0x00, 0x05, 0x16, 0x00, 0x00, 0x02, 0x00, 0x00] ++ List.replicate 16 0 ++ [0, 1]
        ++ [0, 0, 0, 1, 0xFF, 0xFF, 0xFF, 0xFF, 0, 0, 0x10, 0]
        ++ List.replicate 8 0xFF
        ++ [0, 1, 0, 0] ++ List.replicate 68 0 ++ [0, 0, 0, 0] ++ List.replicate 5 0
        ++ [0x50, 0x4E, 0x54, 0x53],
    fill := fun _ => 0, pos := 0 }

set_option maxRecDepth 100000 in
/-- A plain map file of 132 bytes: version 1, data version 0, directory offset 100,
tag `PNTS`. -/
def scenario_file : SDL_RWops :=
  { data := [0, 1, 0, 0] ++ List.replicate 68 0 ++ [0, 0, 0, 100] ++ List.replicate 52 0
      ++ [0x50, 0x4E, 0x54, 0x53],
    fill := fun _ => 0, pos := 0 }

set_option maxRecDepth 100000 in
/-- The file `scenario_file` with directory offset `0x7FFFFFFF`. -/
def far_directory_file : SDL_RWops :=
  { data := [0, 1, 0, 0] ++ List.replicate 68 0 ++ [0x7F, 0xFF, 0xFF, 0xFF]
      ++ List.replicate 52 0 ++ [0x50, 0x4E, 0x54, 0x53],
    fill := fun _ => 0, pos := 0 }

set_option maxRecDepth 100000 in
/-- The file `scenario_file` with version 3. -/
def version3_file : SDL_RWops :=
  { data := [0, 3, 0, 0] ++ List.replicate 68 0 ++ [0, 0, 0, 100] ++ List.replicate 52 0
      ++ [0x50, 0x4E, 0x54, 0x53],
    fill := fun _ => 0, pos := 0 }

/-- A shapes record whose two offsets are the sentinel: 20 bytes of fields, 12 more bytes. -/
def empty_record : List Nat :=
  [0, 0, 0, 0, 0xFF, 0xFF, 0xFF, 0xFF, 0, 0, 0, 0, 0xFF, 0xFF, 0xFF, 0xFF, 0, 0, 0, 0]
    ++ List.replicate 12 0

/-- The bytes of `n` records `empty_record`. -/
def empty_records : Nat → List Nat
  | 0 => []
  | n + 1 => empty_record ++ empty_records n

set_option maxRecDepth 100000 in
/-- A plain file of 32 shapes records (1024 bytes): the first has `offset = 0x80000000` and
`length = 0xFFFFFFFF`, all other offsets are the sentinel. -/
def underflow_file : SDL_RWops :=
  { data :=
      [0, 0, 0, 0, 0x80, 0, 0, 0, 0xFF, 0xFF, 0xFF, 0xFF, 0xFF, 0xFF, 0xFF, 0xFF, 0, 0, 0, 0]
        ++ List.replicate 12 0 ++ empty_records 31,
    fill := fun _ => 0, pos := 0 }

set_option maxRecDepth 100000 in
/-- A plain file of 32 shapes records (1024 bytes): the first has `offset = 100` and
`length = 0x7FFFFFFF`, all other offsets are the sentinel. -/
def overflow_file : SDL_RWops :=
  { data :=
      [0, 0, 0, 0, 0, 0, 0, 100, 0x7F, 0xFF, 0xFF, 0xFF, 0xFF, 0xFF, 0xFF, 0xFF, 0, 0, 0, 0]
        ++ List.replicate 12 0 ++ empty_records 31,
    fill := fun _ => 0, pos := 0 }

set_option maxRecDepth 100000 in
/-- A plain shapes file (1024 bytes): the first record has `offset = 512`, `length = 512`,
`offset16 = 0`, `length16 = 100`, all other offsets are the sentinel. -/
def shapes_file : SDL_RWops :=
  { data :=
      [0, 0, 0, 0, 0, 0, 2, 0, 0, 0, 2, 0, 0, 0, 0, 0, 0, 0, 0, 100]
        ++ List.replicate 12 0 ++ empty_records 31,
    fill := fun _ => 0, pos := 0 }

set_option maxRecDepth 100000 in
/-- The file `shapes_file` with `status_flags = 1` in record 5. -/
def flagged_file : SDL_RWops :=
  { data :=
      [0, 0, 0, 0, 0, 0, 2, 0, 0, 0, 2, 0, 0, 0, 0, 0, 0, 0, 0, 100]
        ++ List.replicate 12 0 ++ empty_records 4
        ++ [0, 0, 0, 1] ++ List.replicate 28 0 ++ empty_records 26,
    fill := fun _ => 0, pos := 0 }

/-- The 38 bytes of an AppleSingle header with one entry, for the data fork (id 1), with
the given four offset bytes and four length bytes. -/
def applesingle_header (ofs len : List Nat) : List Nat :=
  [0x00, 0x05, 0x16, 0x00, 0x00, 0x02, 0x00, 0x00] ++ List.replicate 16 0 ++ [0, 1]
    ++ [0, 0, 0, 1] ++ ofs ++ len

set_option maxRecDepth 100000 in
/-- An AppleSingle file with a data fork of 4 bytes at offset 38, followed by `snd2`. -/
def fork_then_snd2 : SDL_RWops :=
  { data := applesingle_header [0, 0, 0, 38] [0, 0, 0, 4] ++ [0, 0, 0, 1]
      ++ [0x73, 0x6E, 0x64, 0x32] ++ List.replicate 64 0 ++ [0, 0, 0, 16],
    fill := fun _ => 0, pos := 0 }

set_option maxRecDepth 100000 in
/-- The file `fork_then_snd2` with `xxxx` in the place of `snd2`, after the data fork. -/
def fork_then_xxxx : SDL_RWops :=
  { data := applesingle_header [0, 0, 0, 38] [0, 0, 0, 4] ++ [0, 0, 0, 1]
      ++ [0x78, 0x78, 0x78, 0x78] ++ List.replicate 64 0 ++ [0, 0, 0, 16],
    fill := fun _ => 0, pos := 0 }

set_option maxRecDepth 100000 in
/-- An AppleSingle file whose data fork entry has offset `0xFFFFFFFE` and length 4096; a
sound bank signature follows the entry table. -/
def offset_minus2_file : SDL_RWops :=
  { data := applesingle_header [0xFF, 0xFF, 0xFF, 0xFE] [0, 0, 0x10, 0]
      ++ [0, 0, 0, 1, 0x73, 0x6E, 0x64, 0x32],
    fill := fun _ => 0, pos := 0 }

set_option maxRecDepth 100000 in
/-- A MacBinary II file: a header with name length 1, data fork length 8, version bytes
`0x81` and CRC `0xBF14`, then a data fork that holds a sound bank signature. -/
def macbinary_sounds_file : SDL_RWops :=
  { data := [0, 1, 0x61] ++ List.replicate 80 0 ++ [0, 0, 0, 8] ++ List.replicate 35 0
      ++ [0x81, 0x81] ++ [0xBF, 0x14] ++ [0, 0]
      ++ [0, 0, 0, 1, 0x73, 0x6E, 0x64, 0x32],
    fill := fun _ => 0, pos := 0 }

set_option maxRecDepth 100000 in
/-- The bytes of `sounds_file` as the data fork, at offset 38, of an AppleSingle file. -/
def wrapped_sounds_file : SDL_RWops :=
  { data := applesingle_header [0, 0, 0, 38] [0, 0, 0, 130] ++ sounds_file.data,
    fill := fun _ => 0, pos := 0 }

/-! ## The AppleSingle header and its entry table -/

/-- The entry id `is_applesingle` looks for. -/
def req_id (rsrc_fork : Bool) : Nat := if rsrc_fork then 2 else 1

/-- The eight bytes of the AppleSingle magic and version. -/
def applesingle_magic : List Nat := [0x00, 0x05, 0x16, 0x00, 0x00, 0x02, 0x00, 0x00]

/-- The stream starts with the AppleSingle magic and version, as `is_applesingle` reads
them. -/
def SDL_RWops.has_magic (p : SDL_RWops) : Prop := p.be32 0 = 0x00051600 ∧ p.be32 4 = 0x00020000

instance (p : SDL_RWops) : Decidable p.has_magic := by
  unfold SDL_RWops.has_magic
  infer_instance

/-- The 16-bit entry count at offset `0x18`. -/
def SDL_RWops.num_entries (p : SDL_RWops) : Nat := p.be16 0x18

/-- The id of entry `j` of the table of 12-byte entries that starts at offset `0x1A`. -/
def SDL_RWops.entry_id (p : SDL_RWops) (j : Nat) : Nat := p.be32 (0x1A + 12 * j)

/-- The offset of entry `j`, an `int32`. -/
def SDL_RWops.entry_offset (p : SDL_RWops) (j : Nat) : Int := toInt32 (p.be32 (0x1A + 12 * j + 4))

/-- The length of entry `j`, an `int32`. -/
def SDL_RWops.entry_length (p : SDL_RWops) (j : Nat) : Int := toInt32 (p.be32 (0x1A + 12 * j + 8))

/-! ## The MacBinary II header -/

/-- The buffer `header` of `is_macbinary` after its read of 128 bytes at the start of the
stream. -/
def SDL_RWops.header (p : SDL_RWops) : List Nat :=
  (SDL_RWread (SDL_RWseek p 0 SEEK_SET).2 128).1

/-- The byte `header[i]`. -/
def SDL_RWops.hdr (p : SDL_RWops) (i : Nat) : Nat := p.header.getD i 0

/-- One shift of a 16-bit CRC register whose top bit selects the polynomial `0x1021`. -/
def crc_shift (z : Nat) : Nat :=
  if z &&& 0x8000 ≠ 0 then ((z <<< 1) ^^^ 0x1021) % 65536 else (z <<< 1) % 65536

/-- The stream `p` with bit `j` of the byte at position `i` flipped. -/
def SDL_RWops.flip (p : SDL_RWops) (i j : Nat) : SDL_RWops :=
  { p with
    data := p.data.set i (p.data.getD i 0 ^^^ 2 ^ j)
    small := by rw [List.length_set]; exact p.small }

/-! ## What `Open` leaves -/

/-- The cursor of the stream of an opened file. -/
def OpenedFile.cursor (o : OpenedFile) : Option Int := o.f.map SDL_RWtell

/-- The window of the container `Open` looks for: the offset and the length returned by
`is_applesingle` for the data fork, else 128 and the data fork length returned by
`is_macbinary`, else none. -/
def container_window (p : SDL_RWops) : Option (Int × Int) :=
  match (is_applesingle p false).1 with
  | some (offset, data_length) => some (offset, data_length)
  | none =>
    match (is_macbinary p).1 with
    | some (data_length, _) => some (128, data_length)
    | none => none

/-! ## Sample container files and short files -/

set_option maxRecDepth 100000 in
/-- An AppleSingle file with three entries: id 3 (offset 62, length 10), id 1 (offset 72,
length 4) and id 9 (offset 76, length 2); 78 bytes. -/
def three_entries_file : SDL_RWops :=
  { data := applesingle_magic ++ List.replicate 16 0 ++ [0, 3]
      ++ [0, 0, 0, 3, 0, 0, 0, 62, 0, 0, 0, 10]
      ++ [0, 0, 0, 1, 0, 0, 0, 72, 0, 0, 0, 4]
      ++ [0, 0, 0, 9, 0, 0, 0, 76, 0, 0, 0, 2]
      ++ List.replicate 16 0x55,
    fill := fun _ => 0, pos := 0 }

set_option maxRecDepth 100000 in
/-- An AppleSingle file with four entries: id 1 (offset 74, length 4), id 2 (offset 78,
length 3), id 1 (offset 81, length 8) and id 2 (offset 89, length 5); 94 bytes. -/
def repeated_entries_file : SDL_RWops :=
  { data := applesingle_magic ++ List.replicate 16 0 ++ [0, 4]
      ++ [0, 0, 0, 1, 0, 0, 0, 74, 0, 0, 0, 4]
      ++ [0, 0, 0, 2, 0, 0, 0, 78, 0, 0, 0, 3]
      ++ [0, 0, 0, 1, 0, 0, 0, 81, 0, 0, 0, 8]
      ++ [0, 0, 0, 2, 0, 0, 0, 89, 0, 0, 0, 5]
      ++ List.replicate 20 0x55,
    fill := fun _ => 0, pos := 0 }

/-- A MacBinary II header: name `Name`, data fork length 16, resource fork length 258,
version bytes `0x81`, CRC `0x9B67`. -/
def macbinary_header : List Nat :=
  [0, 4, 0x4E, 0x61, 0x6D, 0x65] ++ List.replicate 77 0 ++ [0, 0, 0, 16] ++ [0, 0, 1, 2]
    ++ List.replicate 31 0 ++ [0x81, 0x81] ++ [0x9B, 0x67] ++ [0, 0]

set_option maxRecDepth 100000 in
/-- A MacBinary II file of 144 bytes: the header `macbinary_header` and a data fork of 16
bytes. -/
def macbinary_file : SDL_RWops :=
  { data := macbinary_header ++ List.replicate 16 0x55, fill := fun _ => 0, pos := 0 }

set_option maxRecDepth 100000 in
/-- A file of 136 bytes that passes both tests.  As AppleSingle it has one entry, the data
fork at offset 128 with length 8; as MacBinary II its header has data fork length 4, version
bytes `0x81` and CRC `0x949C`.  A sound bank signature is at offset 128. -/
def applesingle_macbinary_file : SDL_RWops :=
  { data := applesingle_magic ++ List.replicate 16 0 ++ [0, 1]
      ++ [0, 0, 0, 1, 0, 0, 0, 0x80, 0, 0, 0, 8] ++ List.replicate 45 0 ++ [0, 0, 0, 4]
      ++ List.replicate 35 0 ++ [0x81, 0x81] ++ [0x94, 0x9C] ++ [0, 0]
      ++ [0, 0, 0, 1, 0x73, 0x6E, 0x64, 0x32],
    fill := fun _ => 0, pos := 0 }

set_option maxRecDepth 100000 in
/-- An AppleSingle file of 46 bytes whose data fork entry has offset 38 and length
`0xFFFFFFFF`. -/
def negative_length_file : SDL_RWops :=
  { data := applesingle_header [0, 0, 0, 38] [0xFF, 0xFF, 0xFF, 0xFF]
      ++ [0, 0, 0, 1, 0x73, 0x6E, 0x64, 0x32],
    fill := fun _ => 0, pos := 0 }

set_option maxRecDepth 100000 in
/-- A file of 128 bytes: the header `macbinary_header`, which has data fork length 16, and
nothing after it. -/
def header_only_file : SDL_RWops :=
  { data := macbinary_header, fill := fun _ => 0, pos := 0 }

set_option maxRecDepth 100000 in
/-- The first 126 bytes of the header `macbinary_header`, with any content of the read
buffers. -/
def truncated_header_file (fill : Nat → Nat) : SDL_RWops :=
  { data := macbinary_header.take 126, fill := fill, pos := 0 }

set_option maxRecDepth 100000 in
/-- An AppleSingle file of 1074 bytes whose data fork entry has offset `0xFFFFFFFF` and
length 4096.  The entry table ends at position 38; 8 bytes `FF` follow, then a map header
with version 3 at position 46, then 32 shapes records from position 50 on, all with the
sentinel for their offsets. -/
def stale_shapes_file : SDL_RWops :=
  { data := applesingle_header [0xFF, 0xFF, 0xFF, 0xFF] [0, 0, 0x10, 0]
      ++ List.replicate 8 0xFF ++ [0, 3, 0, 0] ++ empty_records 32,
    fill := fun _ => 0, pos := 0 }

set_option maxRecDepth 100000 in
/-- A MacBinary II file of 128 bytes, the header alone: as `macbinary_header`, with the bytes
`80 00 00 00` for the data fork length and the CRC `0xD860`. -/
def top_bit_length_file : SDL_RWops :=
  { data := [0, 4, 0x4E, 0x61, 0x6D, 0x65] ++ List.replicate 77 0 ++ [0x80, 0, 0, 0]
      ++ [0, 0, 1, 2] ++ List.replicate 31 0 ++ [0x81, 0x81] ++ [0xD8, 0x60] ++ [0, 0],
    fill := fun _ => 0, pos := 0 }

set_option maxRecDepth 100000 in
/-- The object that `Open` leaves for `macbinary_file`: forked at offset 128 with length 16,
the cursor at position 128. -/
def opened_macbinary_file : OpenedFile :=
  { f := some { macbinary_file with pos := 128 }, err := 0, is_forked := true,
    fork_offset := 128, fork_length := 16 }

/-! ## The table-driven CRC of the specification -/

/-- The standard table of the CRC-16 with polynomial `0x1021`, most significant bit first:
entry `i` is the register after byte `i` has gone through a register that held 0. -/
def crc16_xmodem_table : List Nat :=
  [0x0000, 0x1021, 0x2042, 0x3063, 0x4084, 0x50A5, 0x60C6, 0x70E7,
   0x8108, 0x9129, 0xA14A, 0xB16B, 0xC18C, 0xD1AD, 0xE1CE, 0xF1EF,
   0x1231, 0x0210, 0x3273, 0x2252, 0x52B5, 0x4294, 0x72F7, 0x62D6,
   0x9339, 0x8318, 0xB37B, 0xA35A, 0xD3BD, 0xC39C, 0xF3FF, 0xE3DE,
   0x2462, 0x3443, 0x0420, 0x1401, 0x64E6, 0x74C7, 0x44A4, 0x5485,
   0xA56A, 0xB54B, 0x8528, 0x9509, 0xE5EE, 0xF5CF, 0xC5AC, 0xD58D,
   0x3653, 0x2672, 0x1611, 0x0630, 0x76D7, 0x66F6, 0x5695, 0x46B4,
   0xB75B, 0xA77A, 0x9719, 0x8738, 0xF7DF, 0xE7FE, 0xD79D, 0xC7BC,
   0x48C4, 0x58E5, 0x6886, 0x78A7, 0x0840, 0x1861, 0x2802, 0x3823,
   0xC9CC, 0xD9ED, 0xE98E, 0xF9AF, 0x8948, 0x9969, 0xA90A, 0xB92B,
   0x5AF5, 0x4AD4, 0x7AB7, 0x6A96, 0x1A71, 0x0A50, 0x3A33, 0x2A12,
   0xDBFD, 0xCBDC, 0xFBBF, 0xEB9E, 0x9B79, 0x8B58, 0xBB3B, 0xAB1A,
   0x6CA6, 0x7C87, 0x4CE4, 0x5CC5, 0x2C22, 0x3C03, 0x0C60, 0x1C41,
   0xEDAE, 0xFD8F, 0xCDEC, 0xDDCD, 0xAD2A, 0xBD0B, 0x8D68, 0x9D49,
   0x7E97, 0x6EB6, 0x5ED5, 0x4EF4, 0x3E13, 0x2E32, 0x1E51, 0x0E70,
   0xFF9F, 0xEFBE, 0xDFDD, 0xCFFC, 0xBF1B, 0xAF3A, 0x9F59, 0x8F78,
   0x9188, 0x81A9, 0xB1CA, 0xA1EB, 0xD10C, 0xC12D, 0xF14E, 0xE16F,
   0x1080, 0x00A1, 0x30C2, 0x20E3, 0x5004, 0x4025, 0x7046, 0x6067,
   0x83B9, 0x9398, 0xA3FB, 0xB3DA, 0xC33D, 0xD31C, 0xE37F, 0xF35E,
   0x02B1, 0x1290, 0x22F3, 0x32D2, 0x4235, 0x5214, 0x6277, 0x7256,
   0xB5EA, 0xA5CB, 0x95A8, 0x8589, 0xF56E, 0xE54F, 0xD52C, 0xC50D,
   0x34E2, 0x24C3, 0x14A0, 0x0481, 0x7466, 0x6447, 0x5424, 0x4405,
   0xA7DB, 0xB7FA, 0x8799, 0x97B8, 0xE75F, 0xF77E, 0xC71D, 0xD73C,
   0x26D3, 0x36F2, 0x0691, 0x16B0, 0x6657, 0x7676, 0x4615, 0x5634,
   0xD94C, 0xC96D, 0xF90E, 0xE92F, 0x99C8, 0x89E9, 0xB98A, 0xA9AB,
   0x5844, 0x4865, 0x7806, 0x6827, 0x18C0, 0x08E1, 0x3882, 0x28A3,
   0xCB7D, 0xDB5C, 0xEB3F, 0xFB1E, 0x8BF9, 0x9BD8, 0xABBB, 0xBB9A,
   0x4A75, 0x5A54, 0x6A37, 0x7A16, 0x0AF1, 0x1AD0, 0x2AB3, 0x3A92,
   0xFD2E, 0xED0F, 0xDD6C, 0xCD4D, 0xBDAA, 0xAD8B, 0x9DE8, 0x8DC9,
   0x7C26, 0x6C07, 0x5C64, 0x4C45, 0x3CA2, 0x2C83, 0x1CE0, 0x0CC1,
   0xEF1F, 0xFF3E, 0xCF5D, 0xDF7C, 0xAF9B, 0xBFBA, 0x8FD9, 0x9FF8,
   0x6E17, 0x7E36, 0x4E55, 0x5E74, 0x2E93, 0x3EB2, 0x0ED1, 0x1EF0]

/-- The byte-at-a-time step of the specification: the new register is
`((crc << 8) mod 2^16) XOR table[(crc >> 8) XOR byte]`. -/
def crc16_xmodem_byte (crc byte : Nat) : Nat :=
  ((crc <<< 8) % 65536) ^^^ crc16_xmodem_table.getD ((crc >>> 8) ^^^ byte) 0

/-- The CRC-16/XMODEM of a byte sequence, table driven: initial register 0, no final XOR. -/
def crc16_xmodem (bytes : List Nat) : Nat := bytes.foldl crc16_xmodem_byte 0

set_option maxRecDepth 100000 in
/-- An AppleSingle file of 170 bytes whose data fork entry has offset 38 and length
`0xFFFFFFFE`.  The data fork starts with a map header: version 1, data version 0, directory
offset `0xFFFFFFFF`, tag `PNTS` at offset 128. -/
def negative_length_map_file : SDL_RWops :=
  { data := applesingle_header [0, 0, 0, 38] [0xFF, 0xFF, 0xFF, 0xFE]
      ++ [0, 1, 0, 0] ++ List.replicate 68 0 ++ [0xFF, 0xFF, 0xFF, 0xFF] ++ List.replicate 52 0
      ++ [0x50, 0x4E, 0x54, 0x53],
    fill := fun _ => 0, pos := 0 }

set_option maxRecDepth 100000 in
/-- A plain map file of 132 bytes: version 1, data version 0, directory offset
`0xFFFFFFFF`, tag `PNTS`. -/
def negative_directory_file : SDL_RWops :=
  { data := [0, 1, 0, 0] ++ List.replicate 68 0 ++ [0xFF, 0xFF, 0xFF, 0xFF]
      ++ List.replicate 52 0 ++ [0x50, 0x4E, 0x54, 0x53],
    fill := fun _ => 0, pos := 0 }

/-! # Theorems -/

/-! ## Reads at a cursor -/

theorem At.byte {p q : SDL_RWops} {i : Nat} (h : At p q i) (k : Nat) :
    q.byte k = ({ p with pos := i } : SDL_RWops).byte k := by
  obtain ⟨hd, hf, hp | ⟨h1, h2⟩⟩ := h
  · simp [SDL_RWops.byte, hd, hf, hp]
  · have e1 : p.data[q.pos + k]? = none := by
      rw [List.getElem?_eq_none_iff]; omega
    have e2 : p.data[i + k]? = none := by
      rw [List.getElem?_eq_none_iff]; omega
    simp [SDL_RWops.byte, hd, hf, e1, e2]

theorem At.advance {p q : SDL_RWops} {i : Nat} (h : At p q i) (n : Nat) :
    At p (q.advance n) (i + n) := by
  obtain ⟨hd, hf, hp⟩ := h
  refine ⟨hd, hf, ?_⟩
  simp only [SDL_RWops.advance, hd]
  split <;> omega

theorem At.read32 {p q : SDL_RWops} {i : Nat} (h : At p q i) :
    (SDL_ReadBE32 q).1 = p.be32 i ∧ At p (SDL_ReadBE32 q).2 (i + 4) := by
  refine ⟨?_, h.advance 4⟩
  simp [SDL_ReadBE32, SDL_RWops.be32, h.byte]

theorem At.read16 {p q : SDL_RWops} {i : Nat} (h : At p q i) :
    (SDL_ReadBE16 q).1 = p.be16 i ∧ At p (SDL_ReadBE16 q).2 (i + 2) := by
  refine ⟨?_, h.advance 2⟩
  simp [SDL_ReadBE16, SDL_RWops.be16, h.byte]

@[simp] theorem wrap32_zero : wrap32 0 = 0 := by decide

/-- An integer in the range of `int` is stored in an `int` as it is. -/
theorem wrap32_eq {x : Int} (h1 : -2147483648 ≤ x) (h2 : x < 2147483648) : wrap32 x = x := by
  unfold wrap32
  omega

/-- An integer from `2^31` to `2^32 - 1` is stored in an `int` as a negative number. -/
theorem wrap32_neg {x : Int} (h1 : 2147483648 ≤ x) (h2 : x < 4294967296) : wrap32 x < 0 := by
  unfold wrap32
  omega

theorem At.seek_cur {p q : SDL_RWops} {i : Nat} (h : At p q i) (n : Nat)
    (hn : n < 2147483648) : At p (SDL_RWseek q n SEEK_CUR).2 (i + n) := by
  obtain ⟨hd, hf, hp⟩ := h
  have hw : wrap32 (n : Int) = n := wrap32_eq (by omega) (by omega)
  have : ¬ ((q.pos : Int) + n < 0) := by omega
  simp only [SDL_RWseek, hw, this, if_false]
  refine ⟨hd, hf, ?_⟩
  simp only
  omega

theorem At.seek_set {p q : SDL_RWops} {i : Nat} (h : At p q i) (x : Int) (hx : 0 ≤ x)
    (hx2 : x < 2147483648) : At p (SDL_RWseek q x SEEK_SET).2 x.toNat := by
  obtain ⟨hd, hf, _⟩ := h
  have hw : wrap32 x = x := wrap32_eq (by omega) hx2
  have : ¬ ((0 : Int) + x < 0) := by omega
  simp only [SDL_RWseek, hw, this, if_false]
  exact ⟨hd, hf, Or.inl (by simp)⟩

/-- A seek to a position that is no `int` fails; with the cursor past the end of the file,
the reads that follow see what they would see at that position. -/
theorem At.seek_set_far {p q : SDL_RWops} {i : Nat} (h : At p q i) (hi : p.data.length ≤ i)
    (x : Int) (h1 : 2147483648 ≤ x) (h2 : x < 4294967296) :
    At p (SDL_RWseek q x SEEK_SET).2 x.toNat := by
  obtain ⟨hd, hf, hp⟩ := h
  have hw : (0 : Int) + wrap32 x < 0 := by
    have := wrap32_neg h1 h2
    omega
  have hs := p.small
  simp only [SDL_RWseek, hw, if_true]
  exact ⟨hd, hf, Or.inr ⟨by omega, by omega⟩⟩

theorem OverAt.over {p : SDL_RWops} {o : Int} {g : OpenedFile} {i : Nat} (h : OverAt p o g i) :
    Over p o g := by
  obtain ⟨ho, q, hq, hd, hf, _⟩ := h
  exact ⟨ho, q, hq, hd, hf⟩

theorem Over.setPosition {p : SDL_RWops} {o : Int} {g : OpenedFile} (h : Over p o g)
    (x : Int) (hx : 0 ≤ x + o) (hx2 : x + o < 2147483648) :
    OverAt p o (g.SetPosition x).2 (x + o).toNat := by
  obtain ⟨ho, q, hq, hd, hf⟩ := h
  have hat : At p q q.pos := ⟨hd, hf, Or.inl rfl⟩
  refine ⟨by simp [OpenedFile.SetPosition, hq, ho], ?_⟩
  refine ⟨(SDL_RWseek q (x + o) SEEK_SET).2, by simp [OpenedFile.SetPosition, hq, ho], ?_⟩
  exact hat.seek_set _ hx hx2

theorem OverAt.setPosition_far {p : SDL_RWops} {o : Int} {g : OpenedFile} {i : Nat}
    (h : OverAt p o g i) (hi : p.data.length ≤ i) (x : Int) (h1 : 2147483648 ≤ x + o)
    (h2 : x + o < 4294967296) : OverAt p o (g.SetPosition x).2 (x + o).toNat := by
  obtain ⟨ho, q, hq, hat⟩ := h
  refine ⟨by simp [OpenedFile.SetPosition, hq, ho], ?_⟩
  refine ⟨(SDL_RWseek q (x + o) SEEK_SET).2, by simp [OpenedFile.SetPosition, hq, ho], ?_⟩
  exact hat.seek_set_far hi _ h1 h2

theorem OverAt.onRWops32 {p : SDL_RWops} {o : Int} {g : OpenedFile} {i : Nat} (h : OverAt p o g i) :
    (g.onRWops SDL_ReadBE32).1 = p.be32 i ∧ OverAt p o (g.onRWops SDL_ReadBE32).2 (i + 4) := by
  obtain ⟨ho, q, hq, hat⟩ := h
  refine ⟨by simp [OpenedFile.onRWops, hq, hat.read32.1], ?_, (SDL_ReadBE32 q).2, ?_, hat.read32.2⟩
  · simp [OpenedFile.onRWops, hq, ho]
  · simp [OpenedFile.onRWops, hq]

theorem OverAt.onRWops16 {p : SDL_RWops} {o : Int} {g : OpenedFile} {i : Nat} (h : OverAt p o g i) :
    (g.onRWops SDL_ReadBE16).1 = p.be16 i ∧ OverAt p o (g.onRWops SDL_ReadBE16).2 (i + 2) := by
  obtain ⟨ho, q, hq, hat⟩ := h
  refine ⟨by simp [OpenedFile.onRWops, hq, hat.read16.1], ?_, (SDL_ReadBE16 q).2, ?_, hat.read16.2⟩
  · simp [OpenedFile.onRWops, hq, ho]
  · simp [OpenedFile.onRWops, hq]

theorem OverAt.skip {p : SDL_RWops} {o : Int} {g : OpenedFile} {i : Nat} (h : OverAt p o g i)
    (n : Nat) (hn : n < 2147483648) : OverAt p o (g.skip n) (i + n) := by
  obtain ⟨ho, q, hq, hat⟩ := h
  refine ⟨by simp [OpenedFile.skip, hq, ho], (SDL_RWseek q n SEEK_CUR).2, ?_, hat.seek_cur n hn⟩
  simp [OpenedFile.skip, hq]

/-! ## The three blocks of `GetType` and the passes on the window -/

/-- The Sounds block computes the Sounds pass on the window at the fork offset. -/
theorem sounds_eq {p : SDL_RWops} {o : Int} {g : OpenedFile} (h : Over p o g) (ho : 0 ≤ o)
    (ho2 : o < 2147483648) (len : Int) :
    (FileSpecifier.GetType.sounds g).1
        = (if Sniffer.sounds (p.window o.toNat len) then some _typecode_sounds else none)
      ∧ Over p o (FileSpecifier.GetType.sounds g).2 := by
  have h0 := h.setPosition 0 (by omega) (by omega)
  rw [Int.zero_add] at h0
  obtain ⟨v1, h1⟩ := h0.onRWops32
  obtain ⟨v2, h2⟩ := h1.onRWops32
  simp only [FileSpecifier.GetType.sounds, v1, v2, Sniffer.sounds, SDL_RWops.window, Nat.add_zero,
    decide_eq_true_eq]
  split
  · exact ⟨rfl, h2.over⟩
  · exact ⟨rfl, h2.over⟩

/-- The Map/Physics block computes the Map/Physics pass on the window at the fork offset. -/
theorem map_eq {p : SDL_RWops} {o : Int} {g : OpenedFile} (h : Over p o g) (ho : 0 ≤ o)
    (ho2 : o < 2147483648) (len : Int) :
    (FileSpecifier.GetType.map g len).1 = Sniffer.map (p.window o.toNat len)
      ∧ Over p o (FileSpecifier.GetType.map g len).2 := by
  have h0 := h.setPosition 0 (by omega) (by omega)
  rw [Int.zero_add] at h0
  obtain ⟨v1, h1⟩ := h0.onRWops16
  obtain ⟨v2, h2⟩ := h1.onRWops16
  have h3 := h2.skip 68 (by omega)
  obtain ⟨v4, h4⟩ := h3.onRWops32
  have h5 : OverAt p o ((((((g.SetPosition 0).2.onRWops SDL_ReadBE16).2.onRWops
      SDL_ReadBE16).2.skip 68).onRWops SDL_ReadBE32).2.SetPosition 128).2 (128 + o).toNat := by
    by_cases hc : 128 + o < 2147483648
    · exact h4.over.setPosition 128 (by omega) hc
    · have hs := p.small
      exact h4.setPosition_far (by omega) 128 (by omega) (by omega)
  have e5 : (128 + o).toNat = o.toNat + 128 := by omega
  rw [e5] at h5
  obtain ⟨v6, h6⟩ := h5.onRWops32
  have e4 : o.toNat + 2 + 2 + 68 = o.toNat + 72 := by omega
  rw [e4] at v4
  simp only [FileSpecifier.GetType.map, v1, v2, v4, v6, Sniffer.map, Sniffer.gate,
    Sniffer.directory_offset, SDL_RWops.window, Nat.add_zero, decide_eq_true_eq]
  split
  · split
    · exact ⟨rfl, h4.over⟩
    · split
      · exact ⟨rfl, h6.over⟩
      · split
        · exact ⟨rfl, h6.over⟩
        · exact ⟨rfl, h6.over⟩
  · exact ⟨rfl, h2.over⟩

theorem record_ok_iff (w : Window) (i : Nat) :
    Sniffer.record_ok w i = true ↔
      ¬ (Sniffer.status_flags w i ≠ 0
        ∨ (Sniffer.offset w i ≠ NONE ∧ (Sniffer.offset w i ≥ w.file_length
            ∨ add32 (Sniffer.offset w i) (Sniffer.length w i) > w.file_length))
        ∨ (Sniffer.offset16 w i ≠ NONE ∧ (Sniffer.offset16 w i ≥ w.file_length
            ∨ add32 (Sniffer.offset16 w i) (Sniffer.length16 w i) > w.file_length))) := by
  simp only [Sniffer.record_ok, decide_eq_true_eq, not_or, not_and, not_not, ne_eq, ge_iff_le,
    gt_iff_lt, not_le, not_lt]
  constructor
  · rintro ⟨h1, h2, h3⟩
    refine ⟨h1, fun hn => ?_, fun hn => ?_⟩
    · rcases h2 with h2 | h2
      · exact absurd h2 hn
      · exact h2
    · rcases h3 with h3 | h3
      · exact absurd h3 hn
      · exact h3
  · rintro ⟨h1, h2, h3⟩
    refine ⟨h1, ?_, ?_⟩
    · by_cases hn : Sniffer.offset w i = NONE
      · exact Or.inl hn
      · exact Or.inr (h2 hn)
    · by_cases hn : Sniffer.offset16 w i = NONE
      · exact Or.inl hn
      · exact Or.inr (h3 hn)

/-- The Shapes loop with `n` turns left, the cursor at record `i`, tests records `i .. i+n-1`. -/
theorem shapes_loop_eq {p : SDL_RWops} {o : Int} (b : Nat) (len : Int) (n : Nat) :
    ∀ (g : OpenedFile) (i : Nat), OverAt p o g (b + 32 * i) →
      (FileSpecifier.GetType.shapes_loop len n g).1
          = (List.range n).all (fun k => Sniffer.record_ok (p.window b len) (i + k))
        ∧ Over p o (FileSpecifier.GetType.shapes_loop len n g).2 := by
  induction n with
  | zero =>
    intro g i h
    exact ⟨by simp [FileSpecifier.GetType.shapes_loop], h.over⟩
  | succ n ih =>
    intro g i h
    obtain ⟨v1, h1⟩ := h.onRWops32
    obtain ⟨v2, h2⟩ := h1.onRWops32
    obtain ⟨v3, h3⟩ := h2.onRWops32
    obtain ⟨v4, h4⟩ := h3.onRWops32
    obtain ⟨v5, h5⟩ := h4.onRWops32
    have h6 := h5.skip 12 (by omega)
    have e6 : b + 32 * i + 4 + 4 + 4 + 4 + 4 + 12 = b + 32 * (i + 1) := by omega
    rw [e6] at h6
    have ih' := ih _ _ h6
    have hr := record_ok_iff (p.window b len) i
    simp only [Sniffer.status_flags, Sniffer.offset, Sniffer.length, Sniffer.offset16,
      Sniffer.length16, SDL_RWops.window] at hr
    have e2 : b + 32 * i + 4 + 4 = b + (32 * i + 8) := by omega
    have e3 : b + 32 * i + 4 + 4 + 4 = b + (32 * i + 12) := by omega
    have e4 : b + 32 * i + 4 + 4 + 4 + 4 = b + (32 * i + 16) := by omega
    have e1 : b + 32 * i + 4 = b + (32 * i + 4) := by omega
    rw [e1] at v2
    rw [e2] at v3
    rw [e3] at v4
    rw [e4] at v5
    rw [List.range_succ_eq_map, List.all_cons, List.all_map]
    simp only [FileSpecifier.GetType.shapes_loop, v1, v2, v3, v4, v5]
    split
    · rename_i hc
      have : Sniffer.record_ok (p.window b len) (i + 0) = false := by
        rw [Nat.add_zero, Bool.eq_false_iff]
        exact fun hn => (hr.mp hn) hc
      exact ⟨by rw [this, Bool.false_and], h5.over⟩
    · rename_i hc
      have : Sniffer.record_ok (p.window b len) (i + 0) = true := by
        rw [Nat.add_zero]
        exact hr.mpr hc
      refine ⟨?_, ih'.2⟩
      rw [ih'.1, this, Bool.true_and]
      have e : (fun k => Sniffer.record_ok (p.window b len) (i + 1 + k))
          = ((fun k => Sniffer.record_ok (p.window b len) (i + k)) ∘ Nat.succ) := by
        funext k
        simp only [Function.comp, Nat.succ_eq_add_one]
        rw [Nat.add_assoc, Nat.add_comm 1 k]
      rw [e]

/-- The Shapes block computes the Shapes pass on the window at the fork offset. -/
theorem shapes_eq {p : SDL_RWops} {o : Int} {g : OpenedFile} (h : Over p o g) (ho : 0 ≤ o)
    (ho2 : o < 2147483648) (len : Int) :
    (FileSpecifier.GetType.shapes g len).1
        = (if Sniffer.shapes (p.window o.toNat len) then some _typecode_shapes else none)
      ∧ Over p o (FileSpecifier.GetType.shapes g len).2 := by
  have h0 := h.setPosition 0 (by omega) (by omega)
  rw [Int.zero_add] at h0
  have h1 := shapes_loop_eq o.toNat len 32 (g.SetPosition 0).2 0
    (by rw [Nat.mul_zero, Nat.add_zero]; exact h0)
  have e : (fun k => Sniffer.record_ok (p.window o.toNat len) (0 + k))
      = Sniffer.record_ok (p.window o.toNat len) := by
    funext k
    rw [Nat.zero_add]
  rw [e] at h1
  unfold FileSpecifier.GetType.shapes Sniffer.shapes
  simp only [h1.1]
  split
  · exact ⟨rfl, h1.2⟩
  · exact ⟨rfl, h1.2⟩

/-! ## What `Open` and `GetLength` leave -/

@[simp] theorem advance_data (q : SDL_RWops) (n : Nat) : (q.advance n).data = q.data := rfl

@[simp] theorem advance_fill (q : SDL_RWops) (n : Nat) : (q.advance n).fill = q.fill := rfl

@[simp] theorem seek_data (q : SDL_RWops) (x : Int) (w : Whence) :
    (SDL_RWseek q x w).2.data = q.data := by
  simp only [SDL_RWseek]
  split <;> rfl

@[simp] theorem seek_fill (q : SDL_RWops) (x : Int) (w : Whence) :
    (SDL_RWseek q x w).2.fill = q.fill := by
  simp only [SDL_RWseek]
  split <;> rfl

@[simp] theorem read32_data (q : SDL_RWops) : (SDL_ReadBE32 q).2.data = q.data := rfl

@[simp] theorem read32_fill (q : SDL_RWops) : (SDL_ReadBE32 q).2.fill = q.fill := rfl

@[simp] theorem read16_data (q : SDL_RWops) : (SDL_ReadBE16 q).2.data = q.data := rfl

@[simp] theorem read16_fill (q : SDL_RWops) : (SDL_ReadBE16 q).2.fill = q.fill := rfl

@[simp] theorem read_data (q : SDL_RWops) (n : Nat) : (SDL_RWread q n).2.data = q.data := rfl

@[simp] theorem read_fill (q : SDL_RWops) (n : Nat) : (SDL_RWread q n).2.fill = q.fill := rfl

theorem find_same (req_id n : Nat) :
    ∀ q : SDL_RWops, (is_applesingle.find req_id n q).2.data = q.data
      ∧ (is_applesingle.find req_id n q).2.fill = q.fill := by
  induction n with
  | zero => intro q; exact ⟨rfl, rfl⟩
  | succ n ih =>
    intro q
    simp only [is_applesingle.find]
    split
    · exact ⟨rfl, rfl⟩
    · have := ih (SDL_ReadBE32 (SDL_ReadBE32 (SDL_ReadBE32 q).2).2).2
      simpa using this

theorem is_applesingle_same (q : SDL_RWops) (rsrc_fork : Bool) :
    (is_applesingle q rsrc_fork).2.data = q.data ∧ (is_applesingle q rsrc_fork).2.fill = q.fill := by
  simp only [is_applesingle]
  split
  · simp
  · have := find_same (if rsrc_fork = true then 2 else 1)
      (SDL_ReadBE16 (SDL_RWseek (SDL_ReadBE32 (SDL_ReadBE32 (SDL_RWseek q 0 SEEK_SET).2).2).2 24
        SEEK_SET).2).1
      (SDL_ReadBE16 (SDL_RWseek (SDL_ReadBE32 (SDL_ReadBE32 (SDL_RWseek q 0 SEEK_SET).2).2).2 24
        SEEK_SET).2).2
    simpa using this

theorem is_macbinary_same (q : SDL_RWops) :
    (is_macbinary q).2.data = q.data ∧ (is_macbinary q).2.fill = q.fill := by
  simp only [is_macbinary]
  split
  · simp
  · split
    · simp
    · simp

/-- The two detectors look at the bytes of the file only, not at the incoming cursor. -/
theorem is_macbinary_cursor (p q : SDL_RWops) (hd : q.data = p.data) (hf : q.fill = p.fill) :
    (is_macbinary q).1 = (is_macbinary p).1 := by
  have e : (SDL_RWseek q 0 SEEK_SET).2 = (SDL_RWseek p 0 SEEK_SET).2 := by
    cases p; cases q
    simp only at hd hf
    subst hd
    subst hf
    simp [SDL_RWseek]
  simp only [is_macbinary, e]

theorem Open_fst (p : SDL_RWops) (g : OpenedFile) :
    (FileSpecifier.Open (some p) g false).1 = true := by
  simp only [FileSpecifier.Open, Bool.false_eq_true, if_false]
  rcases (is_applesingle p false).1 with _ | ⟨O, L⟩
  · rcases (is_macbinary (is_applesingle p false).2).1 with _ | ⟨L, R⟩ <;> rfl
  · rfl

/-- What `Open` leaves in the opened file, by the outcome of the two detectors. -/
theorem unwrap_cases (p : SDL_RWops) :
    (∃ O L, (is_applesingle p false).1 = some (O, L)
        ∧ (unwrap p).is_forked = true ∧ (unwrap p).fork_offset = O ∧ (unwrap p).fork_length = L)
    ∨ ((is_applesingle p false).1 = none ∧ ∃ L R, (is_macbinary p).1 = some (L, R)
        ∧ (unwrap p).is_forked = true ∧ (unwrap p).fork_offset = 128
        ∧ (unwrap p).fork_length = L)
    ∨ ((is_applesingle p false).1 = none ∧ (is_macbinary p).1 = none
        ∧ (unwrap p).is_forked = false ∧ (unwrap p).fork_offset = 0) := by
  have hm := is_macbinary_cursor p (is_applesingle p false).2 (is_applesingle_same p false).1
    (is_applesingle_same p false).2
  rw [← hm]
  simp only [unwrap, FileSpecifier.Open, Bool.false_eq_true, if_false]
  rcases ha : (is_applesingle p false).1 with _ | ⟨O, L⟩
  · rcases hb : (is_macbinary (is_applesingle p false).2).1 with _ | ⟨L, R⟩
    · exact Or.inr (Or.inr ⟨rfl, rfl, rfl, rfl⟩)
    · exact Or.inr (Or.inl ⟨rfl, L, R, rfl, rfl, rfl, rfl⟩)
  · exact Or.inl ⟨O, L, rfl, rfl, rfl, rfl⟩

theorem unwrap_over (p : SDL_RWops) : Over p (unwrap p).fork_offset (unwrap p) := by
  refine ⟨rfl, ?_⟩
  have ha := is_applesingle_same p false
  have hm := is_macbinary_same (is_applesingle p false).2
  simp only [unwrap, FileSpecifier.Open, Bool.false_eq_true, if_false]
  rcases (is_applesingle p false).1 with _ | ⟨O, L⟩
  · rcases (is_macbinary (is_applesingle p false).2).1 with _ | ⟨L, R⟩
    · exact ⟨_, rfl, by simp [hm.1, ha.1], by simp [hm.2, ha.2]⟩
    · exact ⟨_, rfl, by simp [hm.1, ha.1], by simp [hm.2, ha.2]⟩
  · exact ⟨_, rfl, by simp [ha.1], by simp [ha.2]⟩

theorem GetLength_over {p : SDL_RWops} {o : Int} {g : OpenedFile} (h : Over p o g) (x : Int) :
    Over p o (g.GetLength x).2.2 := by
  obtain ⟨ho, q, hq, hd, hf⟩ := h
  simp only [OpenedFile.GetLength, hq]
  split
  · exact ⟨ho, q, rfl, hd, hf⟩
  · exact ⟨ho, _, rfl, by simp [hd], by simp [hf]⟩

theorem toInt32_range (n : Nat) : -2147483648 ≤ toInt32 n ∧ toInt32 n < 2147483648 := by
  unfold toInt32 wrap32
  omega

theorem find_range (req : Nat) (n : Nat) :
    ∀ (q : SDL_RWops) (O L : Int), (is_applesingle.find req n q).1 = some (O, L) →
      (-2147483648 ≤ O ∧ O < 2147483648) ∧ (-2147483648 ≤ L ∧ L < 2147483648) := by
  induction n with
  | zero => intro q O L h; cases h
  | succ n ih =>
    intro q O L h
    simp only [is_applesingle.find] at h
    split at h
    · simp only [Option.some.injEq, Prod.mk.injEq] at h
      rw [← h.1, ← h.2]
      exact ⟨toInt32_range _, toInt32_range _⟩
    · exact ih _ O L h

theorem is_applesingle_range (p : SDL_RWops) (rsrc_fork : Bool) (O L : Int)
    (h : (is_applesingle p rsrc_fork).1 = some (O, L)) :
    (-2147483648 ≤ O ∧ O < 2147483648) ∧ (-2147483648 ≤ L ∧ L < 2147483648) := by
  simp only [is_applesingle] at h
  split at h
  · cases h
  · exact find_range _ _ _ O L h

/-- The fork offset that `Open` stores is an `int32`. -/
theorem unwrap_offset_lt (p : SDL_RWops) : (unwrap p).fork_offset < 2147483648 := by
  rcases unwrap_cases p with ⟨O, L, h, _, ho, _⟩ | ⟨_, _, _, _, _, ho, _⟩ | ⟨_, _, _, ho⟩
  · rw [ho]
    exact (is_applesingle_range p false O L h).1.2
  · rw [ho]
    decide
  · rw [ho]
    decide

/-- The length `GetType` works with: the fork length of a forked file, else the file's size. -/
theorem file_length_eq (p : SDL_RWops) :
    file_length p = if (unwrap p).is_forked then (unwrap p).fork_length else p.data.length := by
  obtain ⟨_, q, hq, hd, _⟩ := unwrap_over p
  simp only [file_length, OpenedFile.GetLength, hq]
  split
  · rfl
  · have hs := p.small
    have hw : wrap32 (p.data.length : Int) = p.data.length := wrap32_eq (by omega) (by omega)
    have : ¬ ((p.data.length : Int) < 0) := by omega
    simp [SDL_RWseek, SDL_RWtell, hd, hw, this]

/-- The method `GetType` sniffs the window that `Open` established, pass by pass, when the
fork offset is not negative. -/
theorem GetType_eq_classify (p : SDL_RWops) (ho : 0 ≤ (unwrap p).fork_offset) :
    FileSpecifier.GetType (some p) = Sniffer.classify (window p) := by
  have h0 := GetLength_over (unwrap_over p) 0
  have ho2 := unwrap_offset_lt p
  obtain ⟨v1, h1⟩ := sounds_eq h0 ho ho2 (file_length p)
  obtain ⟨v2, h2⟩ := map_eq h1 ho ho2 (file_length p)
  obtain ⟨v3, _⟩ := shapes_eq h2 ho ho2 (file_length p)
  have e : FileSpecifier.Open (some p) OpenedFile.new false = (true, unwrap p) := by
    rw [← Open_fst p OpenedFile.new]
    rfl
  simp only [FileSpecifier.GetType, e, Bool.not_true, Bool.false_eq_true, if_false]
  change (match (FileSpecifier.GetType.sounds ((unwrap p).GetLength 0).2.2).1 with
    | some t => t
    | none => match (FileSpecifier.GetType.map
          (FileSpecifier.GetType.sounds ((unwrap p).GetLength 0).2.2).2 (file_length p)).1 with
      | some t => t
      | none => match (FileSpecifier.GetType.shapes (FileSpecifier.GetType.map
          (FileSpecifier.GetType.sounds ((unwrap p).GetLength 0).2.2).2 (file_length p)).2
            (file_length p)).1 with
        | some t => t
        | none => Typecode.NONE) = _
  rw [v1, v2, v3]
  unfold Sniffer.classify window
  cases Sniffer.sounds (p.window (unwrap p).fork_offset.toNat (file_length p))
  · simp only [Bool.false_eq_true, if_false]
    cases Sniffer.map (p.window (unwrap p).fork_offset.toNat (file_length p))
    · simp only
      cases Sniffer.shapes (p.window (unwrap p).fork_offset.toNat (file_length p)) <;> rfl
    · rfl
  · rfl

/-! ## Reads of bytes and fields -/

theorem byte_lt (p : SDL_RWops) (k : Nat) : p.byte k < 256 := Nat.mod_lt _ (by decide)

/-- The first two bytes of a 32-bit read are the two bytes of a 16-bit read at the same place. -/
theorem be32_div (p : SDL_RWops) (i : Nat) : p.be32 i / 65536 = p.be16 i := by
  have h0 := byte_lt { p with pos := i } 0
  have h1 := byte_lt { p with pos := i } 1
  have h2 := byte_lt { p with pos := i } 2
  have h3 := byte_lt { p with pos := i } 3
  simp only [SDL_RWops.be32, SDL_RWops.be16, SDL_ReadBE32, SDL_ReadBE16]
  omega

theorem be32_lt (p : SDL_RWops) (i : Nat) : p.be32 i < 4294967296 := by
  have h0 := byte_lt { p with pos := i } 0
  have h1 := byte_lt { p with pos := i } 1
  have h2 := byte_lt { p with pos := i } 2
  have h3 := byte_lt { p with pos := i } 3
  simp only [SDL_RWops.be32, SDL_ReadBE32]
  omega

/-- A 32-bit read of four bytes that the file holds. -/
theorem be32_of_bytes (p : SDL_RWops) (i a b c d : Nat) (ha : p.data[i]? = some a)
    (hb : p.data[i + 1]? = some b) (hc : p.data[i + 2]? = some c) (hd : p.data[i + 3]? = some d) :
    p.be32 i = a % 256 * 16777216 + b % 256 * 65536 + c % 256 * 256 + d % 256 := by
  simp [SDL_RWops.be32, SDL_ReadBE32, SDL_RWops.byte, ha, hb, hc, hd]

theorem window_be32_div (p : SDL_RWops) (i : Nat) :
    (window p).be32 i / 65536 = (window p).be16 i := be32_div p _

theorem be32_congr (p q : SDL_RWops) (i j : Nat) (hf : p.fill = q.fill)
    (h : ∀ k, k < 4 → p.data[i + k]? = q.data[j + k]?) : p.be32 i = q.be32 j := by
  have h0 := h 0 (by omega)
  have h1 := h 1 (by omega)
  have h2 := h 2 (by omega)
  have h3 := h 3 (by omega)
  simp only [Nat.add_zero] at h0
  simp [SDL_RWops.be32, SDL_ReadBE32, SDL_RWops.byte, hf, h0, h1, h2, h3]

theorem be16_congr (p q : SDL_RWops) (i j : Nat) (hf : p.fill = q.fill)
    (h : ∀ k, k < 2 → p.data[i + k]? = q.data[j + k]?) : p.be16 i = q.be16 j := by
  have h0 := h 0 (by omega)
  have h1 := h 1 (by omega)
  simp only [Nat.add_zero] at h0
  simp [SDL_RWops.be16, SDL_ReadBE16, SDL_RWops.byte, hf, h0, h1]

/-- The 32-bit sum is the sum of integers, or that sum less `2^32`, when the sum of integers
is at least `-2^31`. -/
theorem add32_le (a b len : Int) (hlow : -2147483648 ≤ a + b) (h : a + b ≤ len) :
    add32 a b ≤ len := by
  unfold add32 wrap32
  omega

theorem tags_distinct :
    FOUR_CHARS_TO_INT 'M' 'N' 'p' 'x' ≠ FOUR_CHARS_TO_INT 'L' 'I' 'N' 'S'
      ∧ FOUR_CHARS_TO_INT 'M' 'N' 'p' 'x' ≠ FOUR_CHARS_TO_INT 'P' 'N' 'T' 'S' := by
  decide

theorem tags_pos :
    FOUR_CHARS_TO_INT 'L' 'I' 'N' 'S' ≠ 0 ∧ FOUR_CHARS_TO_INT 'P' 'N' 'T' 'S' ≠ 0
      ∧ FOUR_CHARS_TO_INT 'M' 'N' 'p' 'x' ≠ 0 := by
  decide

/-! ## The passes on a window -/

theorem map_ne_none (w : Window) (t : Typecode) (h : Sniffer.map w = some t) :
    Sniffer.gate w = true ∧ Sniffer.directory_offset w < w.file_length
      ∧ (t = _typecode_scenario ∨ t = _typecode_physics) := by
  unfold Sniffer.map at h
  split at h
  · rename_i hg
    split at h
    · exact absurd h (by simp)
    · rename_i hd
      refine ⟨hg, by omega, ?_⟩
      split at h
      · exact Or.inl (Option.some.inj h).symm
      · split at h
        · exact Or.inr (Option.some.inj h).symm
        · exact absurd h (by simp)
  · exact absurd h (by simp)

theorem classify_eq_none (w : Window) :
    Sniffer.classify w = Typecode.NONE ↔
      Sniffer.sounds w = false ∧ Sniffer.map w = none ∧ Sniffer.shapes w = false := by
  unfold Sniffer.classify
  cases hs : Sniffer.sounds w
  · cases hm : Sniffer.map w with
    | none =>
      cases hh : Sniffer.shapes w <;> simp
    | some t =>
      have := (map_ne_none w t hm).2.2
      rcases this with rfl | rfl <;> simp
  · simp

theorem classify_sounds (w : Window) (h : Sniffer.classify w = _typecode_sounds) :
    Sniffer.sounds w = true := by
  unfold Sniffer.classify at h
  cases hs : Sniffer.sounds w
  · rw [hs] at h
    simp only [Bool.false_eq_true, if_false] at h
    cases hm : Sniffer.map w with
    | none =>
      rw [hm] at h
      cases hh : Sniffer.shapes w <;> rw [hh] at h <;> simp at h
    | some t =>
      rw [hm] at h
      simp only at h
      rcases (map_ne_none _ t hm).2.2 with rfl | rfl <;> simp at h
  · rfl

theorem shapes_false_of_record (w : Window) (i : Nat) (hi : i < 32)
    (h : Sniffer.record_ok w i = false) : Sniffer.shapes w = false := by
  unfold Sniffer.shapes
  rw [List.all_eq_false]
  exact ⟨i, List.mem_range.mpr hi, by simp [h]⟩

theorem sounds_false_of_version (p : SDL_RWops) (h : (window p).be16 0 ≠ 0) :
    Sniffer.sounds (window p) = false := by
  simp only [Sniffer.sounds, decide_eq_false_iff_not, not_and]
  intro h1
  have := window_be32_div p 0
  rw [h1] at this
  exact absurd this.symm h

/-- The Map/Physics pass fails on a window whose record 4 has `status_flags = 0`: that
field is the tag at offset 128. -/
theorem map_none_of_status (w : Window) (h : Sniffer.status_flags w 4 = 0) :
    Sniffer.map w = none := by
  have h128 : w.be32 128 = 0 := h
  have h1 := tags_pos.1
  have h2 := tags_pos.2.1
  have h3 := tags_pos.2.2
  unfold Sniffer.map
  split
  · split
    · rfl
    · rw [h128]
      simp [h1.symm, h2.symm, h3.symm]
  · rfl

theorem sounds_false_of_status (w : Window) (h : Sniffer.status_flags w 0 = 0) :
    Sniffer.sounds w = false := by
  have h0 : w.be32 0 = 0 := h
  simp [Sniffer.sounds, h0]

theorem record_ok_of_sentinel (w : Window) (i : Nat)
    (h : Sniffer.status_flags w i = 0 ∧ Sniffer.offset w i = NONE
      ∧ Sniffer.offset16 w i = NONE) :
    Sniffer.record_ok w i = true := by
  simp only [Sniffer.record_ok, decide_eq_true_eq]
  exact ⟨h.1, Or.inl h.2.1, Or.inl h.2.2⟩

/-- A window is classified Shapes when all 32 records pass the test of the Shapes loop and
records 0 and 4 have `status_flags = 0`. -/
theorem classify_shapes (w : Window) (h : ∀ i, i < 32 → Sniffer.record_ok w i = true) :
    Sniffer.classify w = _typecode_shapes := by
  have h0 : Sniffer.status_flags w 0 = 0 := by
    have := h 0 (by decide)
    simp only [Sniffer.record_ok, decide_eq_true_eq] at this
    exact this.1
  have h4 : Sniffer.status_flags w 4 = 0 := by
    have := h 4 (by decide)
    simp only [Sniffer.record_ok, decide_eq_true_eq] at this
    exact this.1
  have hh : Sniffer.shapes w = true := by
    unfold Sniffer.shapes
    rw [List.all_eq_true]
    exact fun i hi => h i (List.mem_range.mp hi)
  simp [Sniffer.classify, sounds_false_of_status w h0, map_none_of_status w h4, hh]

/-- The sniffer reads a window at offsets below 1024 only. -/
theorem classify_congr (v w : Window) (h16 : ∀ i, i + 2 ≤ 1024 → v.be16 i = w.be16 i)
    (h32 : ∀ i, i + 4 ≤ 1024 → v.be32 i = w.be32 i) (hl : v.file_length = w.file_length) :
    Sniffer.classify v = Sniffer.classify w := by
  have hs : Sniffer.sounds v = Sniffer.sounds w := by
    simp only [Sniffer.sounds, h32 0 (by omega), h32 4 (by omega)]
  have hm : Sniffer.map v = Sniffer.map w := by
    simp only [Sniffer.map, Sniffer.gate, Sniffer.directory_offset, h16 0 (by omega),
      h16 2 (by omega), h32 72 (by omega), h32 128 (by omega), hl]
  have hr : ∀ i, i < 32 → Sniffer.record_ok v i = Sniffer.record_ok w i := by
    intro i hi
    simp only [Sniffer.record_ok, Sniffer.status_flags, Sniffer.offset, Sniffer.length,
      Sniffer.offset16, Sniffer.length16, h32 (32 * i) (by omega), h32 (32 * i + 4) (by omega),
      h32 (32 * i + 8) (by omega), h32 (32 * i + 12) (by omega), h32 (32 * i + 16) (by omega), hl]
  have hh : Sniffer.shapes v = Sniffer.shapes w := by
    unfold Sniffer.shapes
    rw [Bool.eq_iff_iff, List.all_eq_true, List.all_eq_true]
    constructor
    · intro h i hi
      rw [← hr i (List.mem_range.mp hi)]
      exact h i hi
    · intro h i hi
      rw [hr i (List.mem_range.mp hi)]
      exact h i hi
  unfold Sniffer.classify
  rw [hs, hm, hh]

/-! ## Files made of shapes records -/

theorem empty_record_length : empty_record.length = 32 := by decide

/-- Byte `m` of record `j` of `empty_records n` is byte `m` of `empty_record`. -/
theorem empty_records_getElem? (n : Nat) :
    ∀ j m, j < n → m < 32 → (empty_records n)[32 * j + m]? = empty_record[m]? := by
  induction n with
  | zero => intro j m hj; omega
  | succ n ih =>
    intro j m hj hm
    rw [empty_records]
    rcases j with _ | j
    · rw [Nat.mul_zero, Nat.zero_add,
        List.getElem?_append_left (by rw [empty_record_length]; exact hm)]
    · rw [List.getElem?_append_right (by rw [empty_record_length]; omega), empty_record_length]
      have e : 32 * (j + 1) + m - 32 = 32 * j + m := by omega
      rw [e]
      exact ih j m (by omega) hm

/-- In a file made of one 32-byte record and `empty_records 31`, records 1 to 31 have
`status_flags = 0` and the sentinel in both offsets. -/
theorem tail_records (p : SDL_RWops) (r : List Nat) (len : Int)
    (hd : p.data = r ++ empty_records 31) (hr : r.length = 32) (i : Nat) (h1 : 1 ≤ i)
    (h32 : i < 32) :
    Sniffer.status_flags (p.window 0 len) i = 0 ∧ Sniffer.offset (p.window 0 len) i = NONE
      ∧ Sniffer.offset16 (p.window 0 len) i = NONE := by
  have hk : ∀ m, m < 32 → p.data[32 * i + m]? = empty_record[m]? := fun m hm => by
    rw [hd, List.getElem?_append_right (by rw [hr]; omega), hr]
    have e : 32 * i + m - 32 = 32 * (i - 1) + m := by omega
    rw [e]
    exact empty_records_getElem? 31 (i - 1) m (by omega) hm
  have e0 := be32_of_bytes p (32 * i) 0 0 0 0 (hk 0 (by omega)) (hk 1 (by omega))
    (hk 2 (by omega)) (hk 3 (by omega))
  have e4 := be32_of_bytes p (32 * i + 4) 0xFF 0xFF 0xFF 0xFF (hk 4 (by omega)) (hk 5 (by omega))
    (hk 6 (by omega)) (hk 7 (by omega))
  have e12 := be32_of_bytes p (32 * i + 12) 0xFF 0xFF 0xFF 0xFF (hk 12 (by omega))
    (hk 13 (by omega)) (hk 14 (by omega)) (hk 15 (by omega))
  simp only [Sniffer.status_flags, Sniffer.offset, Sniffer.offset16, SDL_RWops.window,
    Nat.zero_add, e0, e4, e12]
  decide

/-! ## Claim C1: the order of the passes -/

/-- Claim C2: a window, at a fork offset that is not negative, whose first eight bytes are
`00 00 00 01 73 6E 64 32` is classified Sounds, whatever follows them and whatever the
length. -/
theorem GetType_sounds_signature (p : SDL_RWops) (ho : 0 ≤ (unwrap p).fork_offset)
    (h : (p.data.drop (unwrap p).fork_offset.toNat).take 8
      = [0x00, 0x00, 0x00, 0x01, 0x73, 0x6E, 0x64, 0x32]) :
    FileSpecifier.GetType (some p) = _typecode_sounds := by
  have hk : ∀ k, k < 8 → p.data[(unwrap p).fork_offset.toNat + k]?
      = [0x00, 0x00, 0x00, 0x01, 0x73, 0x6E, 0x64, 0x32][k]? := fun k hk => by
    rw [← h, List.getElem?_take_of_lt hk, List.getElem?_drop]
  have e1 := be32_of_bytes p (unwrap p).fork_offset.toNat 0 0 0 1 (hk 0 (by omega))
    (hk 1 (by omega)) (hk 2 (by omega)) (hk 3 (by omega))
  have e2 := be32_of_bytes p ((unwrap p).fork_offset.toNat + 4) 0x73 0x6E 0x64 0x32
    (hk 4 (by omega)) (hk 5 (by omega)) (hk 6 (by omega)) (hk 7 (by omega))
  rw [GetType_eq_classify p ho]
  have hs : Sniffer.sounds (window p) = true := by
    simp only [Sniffer.sounds, window, SDL_RWops.window, Nat.add_zero, decide_eq_true_eq]
    exact ⟨e1, e2⟩
  simp [Sniffer.classify, hs]

set_option maxRecDepth 100000 in
/-- Claim C2 at a plain file of 130 bytes. -/
theorem GetType_sounds_signature_witness :
    0 ≤ (unwrap sounds_file).fork_offset
      ∧ (sounds_file.data.drop (unwrap sounds_file).fork_offset.toNat).take 8
        = [0x00, 0x00, 0x00, 0x01, 0x73, 0x6E, 0x64, 0x32]
      ∧ FileSpecifier.GetType (some sounds_file) = _typecode_sounds :=
  ⟨by decide, by decide, GetType_sounds_signature sounds_file (by decide) (by decide)⟩

/-! ## Claim C3: the tag of a map file -/

/-- Claim C4: on a window, at a fork offset that is not negative, whose version fields pass
the gate and whose directory offset is not below the file length, the Map/Physics pass
fails whatever the tag: the result is neither Scenario nor Physics, it is what the Sounds
pass, else the Shapes pass, gives. -/
theorem GetType_directory_offset_guard (p : SDL_RWops) (ho : 0 ≤ (unwrap p).fork_offset)
    (hg : ((window p).be16 0 = 0 ∨ (window p).be16 0 = 1 ∨ (window p).be16 0 = 2
        ∨ (window p).be16 0 = 4)
      ∧ ((window p).be16 2 = 0 ∨ (window p).be16 2 = 1 ∨ (window p).be16 2 = 2))
    (hd : toInt32 ((window p).be32 72) ≥ (window p).file_length) :
    Sniffer.gate (window p) = true ∧ Sniffer.map (window p) = none
      ∧ FileSpecifier.GetType (some p) ≠ _typecode_scenario
      ∧ FileSpecifier.GetType (some p) ≠ _typecode_physics
      ∧ FileSpecifier.GetType (some p)
        = (if Sniffer.sounds (window p) then _typecode_sounds
          else if Sniffer.shapes (window p) then _typecode_shapes else Typecode.NONE) := by
  have hm : Sniffer.map (window p) = none := by
    simp [Sniffer.map, Sniffer.directory_offset, hd]
  rw [GetType_eq_classify p ho]
  unfold Sniffer.classify
  rw [hm]
  refine ⟨by simpa [Sniffer.gate] using hg, rfl, ?_, ?_, rfl⟩
  · cases Sniffer.sounds (window p) <;> cases Sniffer.shapes (window p) <;> simp
  · cases Sniffer.sounds (window p) <;> cases Sniffer.shapes (window p) <;> simp

set_option maxRecDepth 100000 in
/-- Claim C4 at a map file whose directory offset is `0x7FFFFFFF` and whose tag is `PNTS`. -/
theorem GetType_directory_offset_guard_witness :
    0 ≤ (unwrap far_directory_file).fork_offset
      ∧ (window far_directory_file).be16 0 = 1 ∧ (window far_directory_file).be16 2 = 0
      ∧ toInt32 ((window far_directory_file).be32 72) ≥ (window far_directory_file).file_length
      ∧ (window far_directory_file).be32 128 = FOUR_CHARS_TO_INT 'P' 'N' 'T' 'S'
      ∧ FileSpecifier.GetType (some far_directory_file) ≠ _typecode_scenario :=
  ⟨by decide, by decide, by decide, by decide, by decide,
    (GetType_directory_offset_guard far_directory_file (by decide)
      ⟨Or.inr (Or.inl (by decide)), Or.inl (by decide)⟩ (by decide)).2.2.1⟩

/-! ## Claim C5: the version gate -/

/-- Claim C5, as amended: on a window at a fork offset that is not negative, a Scenario or Physics
result requires the version at offset 0 to be one of 0, 1, 2, 4 and the data version at
offset 2 to be one of 0, 1, 2; a window with version 3 is never classified Scenario or
Physics. -/
theorem GetType_version_gate (p : SDL_RWops) (ho : 0 ≤ (unwrap p).fork_offset) :
    ((FileSpecifier.GetType (some p) = _typecode_scenario
        ∨ FileSpecifier.GetType (some p) = _typecode_physics) →
      ((window p).be16 0 = 0 ∨ (window p).be16 0 = 1 ∨ (window p).be16 0 = 2
          ∨ (window p).be16 0 = 4)
        ∧ ((window p).be16 2 = 0 ∨ (window p).be16 2 = 1 ∨ (window p).be16 2 = 2))
      ∧ ((window p).be16 0 = 3 →
        FileSpecifier.GetType (some p) ≠ _typecode_scenario
          ∧ FileSpecifier.GetType (some p) ≠ _typecode_physics) := by
  have key : (FileSpecifier.GetType (some p) = _typecode_scenario
      ∨ FileSpecifier.GetType (some p) = _typecode_physics) → Sniffer.gate (window p) = true := by
    rw [GetType_eq_classify p ho]
    unfold Sniffer.classify
    cases hs : Sniffer.sounds (window p)
    · cases hm : Sniffer.map (window p) with
      | none => cases Sniffer.shapes (window p) <;> simp
      | some t => exact fun _ => (map_ne_none _ t hm).1
    · simp
  constructor
  · intro h
    have := key h
    simpa [Sniffer.gate] using this
  · intro h3
    have hg : ¬ Sniffer.gate (window p) = true := by
      simp [Sniffer.gate, h3]
    exact ⟨fun h => hg (key (Or.inl h)), fun h => hg (key (Or.inr h))⟩

set_option maxRecDepth 100000 in
/-- Claim C5 at a map file with version 3 and tag `PNTS`. -/
theorem GetType_version_gate_witness :
    0 ≤ (unwrap version3_file).fork_offset ∧ (window version3_file).be16 0 = 3
      ∧ FileSpecifier.GetType (some version3_file) ≠ _typecode_scenario
      ∧ FileSpecifier.GetType (some version3_file) ≠ _typecode_physics :=
  ⟨by decide, by decide, (GetType_version_gate version3_file (by decide)).2 (by decide)⟩

set_option maxRecDepth 100000 in
/-- Claim C5 fails on an AppleSingle file whose data fork entry has offset `0xFFFFFFFF`: the
window starts at offset `-1`, the seeks of `SetPosition(0)` fail, and the Map/Physics block
tests the two versions where the Sounds block left the cursor, at position 46 of the file.
`GetType` answers Scenario; the 16-bit words at positions 0 and 2 of the file are 5 and
`0x1600`, and the word at positions 1 and 2, which is at offset 2 of a window that starts
at position `-1`, is `0x0516`: none is a version that the gate lets pass. -/
theorem GetType_gate_at_stale_cursor :
    (unwrap negative_offset_file).fork_offset = -1
      ∧ FileSpecifier.GetType (some negative_offset_file) = _typecode_scenario
      ∧ (window negative_offset_file).be16 0 = 5
      ∧ (window negative_offset_file).be16 2 = 0x1600
      ∧ negative_offset_file.be16 1 = 0x0516
      ∧ negative_offset_file.be16 46 = 1
      ∧ negative_offset_file.be16 48 = 0 := by
  decide

/-! ## Claim C6: a table of 32 records -/

set_option maxRecDepth 100000 in
/-- Claim C8, the code at the failing input: in a 1024-byte file whose first record has
`offset = 100` and `length = 2^31 - 1` the offset is not the sentinel and `offset + length`
exceeds the file length, yet the 32-bit sum is negative, the bounds test passes and the
file is classified Shapes. -/
theorem GetType_shapes_overflow :
    FileSpecifier.GetType (some overflow_file) = _typecode_shapes
      ∧ (window overflow_file).file_length = 1024
      ∧ Sniffer.offset (window overflow_file) 0 = 100
      ∧ Sniffer.length (window overflow_file) 0 = 2147483647
      ∧ Sniffer.offset (window overflow_file) 0 ≠ NONE
      ∧ Sniffer.offset (window overflow_file) 0 + Sniffer.length (window overflow_file) 0
        > (window overflow_file).file_length := by
  have hw : window overflow_file = overflow_file.window 0 1024 := by
    have h1 : (unwrap overflow_file).fork_offset = 0 := by decide
    have h2 : file_length overflow_file = 1024 := by decide
    unfold window
    rw [h1, h2]
    rfl
  refine ⟨?_, by decide, by decide, by decide, by decide, by decide⟩
  rw [GetType_eq_classify overflow_file (by decide), hw]
  refine classify_shapes _ (fun i hi => ?_)
  rcases Nat.eq_zero_or_pos i with rfl | hpos
  · decide
  · exact record_ok_of_sentinel _ i (tail_records overflow_file _ 1024 rfl (by decide) i hpos hi)

/-! ## Claim C9: the bytes that decide the type -/

theorem At.self (p : SDL_RWops) : At p p p.pos := ⟨rfl, rfl, Or.inl rfl⟩

/-- The loop returns the first entry with the requested id. -/
theorem find_first {p : SDL_RWops} (req : Nat) (n : Nat) :
    ∀ (i : Nat) (q : SDL_RWops), At p q (0x1A + 12 * i) → ∀ k, i ≤ k → k < i + n →
      p.entry_id k = req → (∀ j, i ≤ j → j < k → p.entry_id j ≠ req) →
      (is_applesingle.find req n q).1 = some (p.entry_offset k, p.entry_length k) := by
  induction n with
  | zero => intro i q _ k h1 h2; omega
  | succ n ih =>
    intro i q h k h1 h2 hk hj
    obtain ⟨e1, a1⟩ := h.read32
    obtain ⟨e2, a2⟩ := a1.read32
    obtain ⟨e3, a3⟩ := a2.read32
    simp only [is_applesingle.find, e1, e2, e3]
    rcases Nat.eq_or_lt_of_le h1 with rfl | hlt
    · rw [if_pos (show p.be32 (0x1A + 12 * i) = req from hk)]
      rfl
    · rw [if_neg (show ¬ p.be32 (0x1A + 12 * i) = req from hj i (Nat.le_refl i) hlt)]
      have a4 : At p (SDL_ReadBE32 (SDL_ReadBE32 (SDL_ReadBE32 q).2).2).2 (0x1A + 12 * (i + 1)) := by
        have e : 0x1A + 12 * (i + 1) = 0x1A + 12 * i + 4 + 4 + 4 := by omega
        rw [e]
        exact a3
      exact ih (i + 1) _ a4 k hlt (by omega) hk (fun j hj1 hj2 => hj j (by omega) hj2)

/-- The loop returns nothing when no entry has the requested id. -/
theorem find_none {p : SDL_RWops} (req : Nat) (n : Nat) :
    ∀ (i : Nat) (q : SDL_RWops), At p q (0x1A + 12 * i) →
      (∀ j, i ≤ j → j < i + n → p.entry_id j ≠ req) →
      (is_applesingle.find req n q).1 = none := by
  induction n with
  | zero => intro i q _ _; rfl
  | succ n ih =>
    intro i q h hj
    obtain ⟨e1, a1⟩ := h.read32
    obtain ⟨e2, a2⟩ := a1.read32
    obtain ⟨e3, a3⟩ := a2.read32
    simp only [is_applesingle.find, e1]
    rw [if_neg (show ¬ p.be32 (0x1A + 12 * i) = req from hj i (Nat.le_refl i) (by omega))]
    have a4 : At p (SDL_ReadBE32 (SDL_ReadBE32 (SDL_ReadBE32 q).2).2).2 (0x1A + 12 * (i + 1)) := by
      have e : 0x1A + 12 * (i + 1) = 0x1A + 12 * i + 4 + 4 + 4 := by omega
      rw [e]
      exact a3
    exact ih (i + 1) _ a4 (fun j hj1 hj2 => hj j (by omega) (by omega))

/-- The function `is_applesingle` in terms of reads at fixed offsets: it tests the two words
at 0 and 4, then runs the loop over the table at `0x1A` with the count read at `0x18`. -/
theorem is_applesingle_eq (p : SDL_RWops) (rsrc_fork : Bool) :
    (¬ p.has_magic → (is_applesingle p rsrc_fork).1 = none)
      ∧ (p.has_magic → ∃ q, At p q (0x1A + 12 * 0)
          ∧ (is_applesingle p rsrc_fork).1
            = (is_applesingle.find (req_id rsrc_fork) p.num_entries q).1) := by
  have a0 := (At.self p).seek_set 0 (Int.le_refl 0) (by decide)
  obtain ⟨e1, a1⟩ := a0.read32
  obtain ⟨e2, a2⟩ := a1.read32
  have a3 := a2.seek_set 24 (by decide) (by decide)
  obtain ⟨e4, a4⟩ := a3.read16
  constructor
  · intro h
    have h' : (SDL_ReadBE32 (SDL_RWseek p 0 SEEK_SET).2).1 ≠ 0x00051600
        ∨ (SDL_ReadBE32 (SDL_ReadBE32 (SDL_RWseek p 0 SEEK_SET).2).2).1 ≠ 0x00020000 := by
      rw [e1, e2]
      unfold SDL_RWops.has_magic at h
      by_cases h1 : p.be32 0 = 0x00051600
      · exact Or.inr (fun h2 => h ⟨h1, h2⟩)
      · exact Or.inl h1
    simp only [is_applesingle]
    rw [if_pos h']
  · intro h
    have h' : ¬ ((SDL_ReadBE32 (SDL_RWseek p 0 SEEK_SET).2).1 ≠ 0x00051600
        ∨ (SDL_ReadBE32 (SDL_ReadBE32 (SDL_RWseek p 0 SEEK_SET).2).2).1 ≠ 0x00020000) := by
      rw [e1, e2]
      unfold SDL_RWops.has_magic at h
      simp [h.1, h.2]
    refine ⟨_, a4, ?_⟩
    simp only [is_applesingle]
    rw [if_neg h']
    simp only [req_id, SDL_RWops.num_entries]
    rw [show p.be16 24 = _ from e4.symm]

/-- The magic and version words of a stream of at least 8 bytes are its first 8 bytes. -/
theorem magic_of_bytes (p : SDL_RWops) (h8 : 8 ≤ p.data.length) (hm : p.has_magic) :
    (p.data.take 8).map (fun b => b % 256) = applesingle_magic := by
  obtain ⟨d, f, c, s⟩ := p
  match d, s, h8 with
  | a0 :: a1 :: a2 :: a3 :: a4 :: a5 :: a6 :: a7 :: rest, _, _ =>
    obtain ⟨h1, h2⟩ := hm
    simp only [SDL_RWops.be32, SDL_ReadBE32, SDL_RWops.byte, Nat.zero_add, Nat.add_zero,
      List.getD_cons_zero, List.getD_cons_succ] at h1 h2
    have b0 := Nat.mod_lt a0 (show 0 < 256 by decide)
    have b1 := Nat.mod_lt a1 (show 0 < 256 by decide)
    have b2 := Nat.mod_lt a2 (show 0 < 256 by decide)
    have b3 := Nat.mod_lt a3 (show 0 < 256 by decide)
    have b4 := Nat.mod_lt a4 (show 0 < 256 by decide)
    have b5 := Nat.mod_lt a5 (show 0 < 256 by decide)
    have b6 := Nat.mod_lt a6 (show 0 < 256 by decide)
    have b7 := Nat.mod_lt a7 (show 0 < 256 by decide)
    have e0 : a0 % 256 = 0 := by omega
    have e1 : a1 % 256 = 5 := by omega
    have e2 : a2 % 256 = 0x16 := by omega
    have e3 : a3 % 256 = 0 := by omega
    have e4 : a4 % 256 = 0 := by omega
    have e5 : a5 % 256 = 2 := by omega
    have e6 : a6 % 256 = 0 := by omega
    have e7 : a7 % 256 = 0 := by omega
    simp [applesingle_magic, e0, e1, e2, e3, e4, e5, e6, e7]

/-- A stream of 8 bytes or more whose first 8 bytes are not `00 05 16 00 00 02 00 00` is
rejected by `is_applesingle`, for the data fork and for the resource fork: the two words
that the header test reads are in the file. -/
theorem is_applesingle_needs_magic (p : SDL_RWops) (h8 : 8 ≤ p.data.length)
    (h : (p.data.take 8).map (fun b => b % 256) ≠ applesingle_magic) (rsrc_fork : Bool) :
    (is_applesingle p rsrc_fork).1 = none :=
  (is_applesingle_eq p rsrc_fork).1 (fun hm => h (magic_of_bytes p h8 hm))

/-! ## Claim C12: the entry of the requested fork -/

/-- Claim C12: for a stream with the AppleSingle magic and version, entry count `N` at
`0x18` and 12-byte entries from `0x1A`: when entry `k < N` has id 1 and no other of the `N`
entries has, the data fork request returns true with the offset and the length of entry
`k`, the two fields read as `int32`; and when none of the `N` entries has the requested id
(1 for the data fork, 2 for the resource fork), the request returns false. -/
theorem is_applesingle_entry (p : SDL_RWops) (hm : p.has_magic) :
    (∀ k, k < p.num_entries → p.entry_id k = 1
        → (∀ j, j < p.num_entries → j ≠ k → p.entry_id j ≠ 1)
        → (is_applesingle p false).1 = some (p.entry_offset k, p.entry_length k))
      ∧ (∀ rsrc_fork, (∀ j, j < p.num_entries → p.entry_id j ≠ req_id rsrc_fork)
        → (is_applesingle p rsrc_fork).1 = none) := by
  constructor
  · intro k hk hid hother
    obtain ⟨q, hq, e⟩ := (is_applesingle_eq p false).2 hm
    rw [e]
    exact find_first _ _ 0 q hq k (Nat.zero_le k) (by omega) hid
      (fun j _ hj => hother j (by omega) (by omega))
  · intro rsrc_fork hnone
    obtain ⟨q, hq, e⟩ := (is_applesingle_eq p rsrc_fork).2 hm
    rw [e]
    exact find_none _ _ 0 q hq (fun j _ hj => hnone j (by omega))

/-- Claim C12 at a file of three entries with ids 3, 1 and 9: the data fork is entry 1, at
offset 72 with length 4, and there is no resource fork. -/
theorem is_applesingle_entry_witness :
    three_entries_file.has_magic ∧ three_entries_file.num_entries = 3
      ∧ three_entries_file.entry_offset 1 = 72 ∧ three_entries_file.entry_length 1 = 4
      ∧ (is_applesingle three_entries_file false).1
        = some (three_entries_file.entry_offset 1, three_entries_file.entry_length 1)
      ∧ (is_applesingle three_entries_file true).1 = none :=
  ⟨by decide, by decide, by decide, by decide,
    (is_applesingle_entry three_entries_file (by decide)).1 1 (by decide) (by decide) (by decide),
    (is_applesingle_entry three_entries_file (by decide)).2 true (by decide)⟩

/-! ## Claim C13: the first match wins -/

/-- Claim C13: for a stream with the AppleSingle magic and version, when entry `k` of the
table has the requested id and no entry before it has, `is_applesingle` returns the offset
and the length of entry `k`, whatever the entries after it are. -/
theorem is_applesingle_first_match (p : SDL_RWops) (rsrc_fork : Bool) (hm : p.has_magic)
    (k : Nat) (hk : k < p.num_entries) (hid : p.entry_id k = req_id rsrc_fork)
    (hfirst : ∀ j, j < k → p.entry_id j ≠ req_id rsrc_fork) :
    (is_applesingle p rsrc_fork).1 = some (p.entry_offset k, p.entry_length k) := by
  obtain ⟨q, hq, e⟩ := (is_applesingle_eq p rsrc_fork).2 hm
  rw [e]
  exact find_first _ _ 0 q hq k (Nat.zero_le k) (by omega) hid (fun j _ hj => hfirst j hj)

/-- Claim C13 at a file whose entries have the ids 1, 2, 1, 2: the resource fork request
returns entry 1, offset 78 and length 3, not entry 3. -/
theorem is_applesingle_first_match_witness :
    repeated_entries_file.has_magic ∧ 1 < repeated_entries_file.num_entries
      ∧ repeated_entries_file.entry_id 1 = req_id true
      ∧ repeated_entries_file.entry_id 3 = req_id true
      ∧ (∀ j, j < 1 → repeated_entries_file.entry_id j ≠ req_id true)
      ∧ repeated_entries_file.entry_offset 1 = 78 ∧ repeated_entries_file.entry_length 1 = 3
      ∧ (is_applesingle repeated_entries_file true).1
        = some (repeated_entries_file.entry_offset 1, repeated_entries_file.entry_length 1) :=
  ⟨by decide, by decide, by decide, by decide, by decide, by decide, by decide,
    is_applesingle_first_match repeated_entries_file true (by decide) 1 (by decide) (by decide)
      (by decide)⟩

/-! ## The header of `is_macbinary` -/

theorem shift_or_16 (a b : Nat) (hb : b < 256) : (a <<< 8) ||| b = a * 256 + b := by
  rw [Nat.shiftLeft_eq, Nat.mul_comm, ← Nat.mul_add_lt_is_or (by simpa using hb)]

theorem shift_or_32 (a b c d : Nat) (hb : b < 256) (hc : c < 256) (hd : d < 256) :
    (a <<< 24) ||| (b <<< 16) ||| (c <<< 8) ||| d
      = a * 16777216 + b * 65536 + c * 256 + d := by
  simp only [Nat.shiftLeft_eq]
  have e1 : a * 2 ^ 24 ||| b * 2 ^ 16 = 2 ^ 16 * (a * 256 + b) := by
    have h := Nat.mul_add_lt_is_or (show b * 2 ^ 16 < 2 ^ 24 by omega) a
    rw [Nat.mul_comm (2 ^ 24) a] at h
    rw [← h]
    omega
  have e2 : 2 ^ 16 * (a * 256 + b) ||| c * 2 ^ 8 = 2 ^ 8 * (a * 65536 + b * 256 + c) := by
    rw [← Nat.mul_add_lt_is_or (show c * 2 ^ 8 < 2 ^ 16 by omega)]
    omega
  rw [e1, e2, ← Nat.mul_add_lt_is_or (show d < 2 ^ 8 by omega)]
  omega

theorem hdr_lt (p : SDL_RWops) (i : Nat) : p.hdr i < 256 := by
  unfold SDL_RWops.hdr SDL_RWops.header SDL_RWread
  rw [List.getD_eq_getElem?_getD, List.getElem?_map]
  rcases (List.range 128)[i]? with _ | k
  · exact Nat.zero_lt_succ 255
  · exact byte_lt _ k

/-- The header of a stream of at least 128 bytes is its first 128 bytes. -/
theorem header_of_bytes (p : SDL_RWops) (h : 128 ≤ p.data.length) :
    p.header = (p.data.take 128).map (fun b => b % 256) := by
  apply List.ext_getElem?
  intro i
  simp only [SDL_RWops.header, SDL_RWread, List.getElem?_map]
  by_cases hi : i < 128
  · have h1 : (List.range 128)[i]? = some i := by
      rw [List.getElem?_range hi]
    have h2 : i < p.data.length := by omega
    rw [h1, List.getElem?_take_of_lt hi, List.getElem?_eq_getElem h2]
    simp [SDL_RWops.byte, SDL_RWseek, List.getD_eq_getElem?_getD, List.getElem?_eq_getElem h2]
  · have h1 : (List.range 128)[i]? = none := by
      rw [List.getElem?_eq_none_iff]; simp; omega
    have h2 : (List.take 128 p.data)[i]? = none := by
      rw [List.getElem?_eq_none_iff]; simp; omega
    rw [h1, h2]
    rfl

/-- The function `is_macbinary` on the header buffer. -/
theorem is_macbinary_eq (p : SDL_RWops) :
    (is_macbinary p).1
      = if p.hdr 0 ≠ 0 ∨ p.hdr 1 > 63 ∨ p.hdr 74 ≠ 0 ∨ p.hdr 122 < 0x81 ∨ p.hdr 123 < 0x81 then none
        else if is_macbinary.crc p.header ≠ p.hdr 124 * 256 + p.hdr 125 then none
        else some
          (toInt32 (p.hdr 83 * 16777216 + p.hdr 84 * 65536 + p.hdr 85 * 256 + p.hdr 86),
           toInt32 (p.hdr 87 * 16777216 + p.hdr 88 * 65536 + p.hdr 89 * 256 + p.hdr 90)) := by
  rw [← shift_or_16 _ _ (hdr_lt p 125),
    ← shift_or_32 _ _ _ _ (hdr_lt p 84) (hdr_lt p 85) (hdr_lt p 86),
    ← shift_or_32 _ _ _ _ (hdr_lt p 88) (hdr_lt p 89) (hdr_lt p 90)]
  simp only [is_macbinary, SDL_RWops.hdr, SDL_RWops.header]
  split
  · rfl
  · split <;> rfl

/-! ## Claim C14: the header test of MacBinary II -/

/-- Claim C14: `is_macbinary` returns true if and only if `header[0] = 0`,
`header[1] <= 63`, `header[74] = 0`, `header[122] >= 0x81`, `header[123] >= 0x81` and the
CRC computed over `header[0..123]` is the big-endian 16-bit value of `header[124..125]`,
where `header` is the buffer after the read of 128 bytes: the first 128 bytes of a stream
that has them. -/
theorem is_macbinary_accepts_iff (p : SDL_RWops) :
    ((is_macbinary p).1.isSome = true
        ↔ p.hdr 0 = 0 ∧ p.hdr 1 ≤ 63 ∧ p.hdr 74 = 0 ∧ 0x81 ≤ p.hdr 122 ∧ 0x81 ≤ p.hdr 123
          ∧ is_macbinary.crc p.header = p.hdr 124 * 256 + p.hdr 125)
      ∧ (128 ≤ p.data.length → p.header = (p.data.take 128).map (fun b => b % 256)) := by
  refine ⟨?_, header_of_bytes p⟩
  rw [is_macbinary_eq]
  constructor
  · intro h
    split at h
    · cases h
    · rename_i h1
      split at h
      · cases h
      · rename_i h2
        refine ⟨?_, ?_, ?_, ?_, ?_, ?_⟩
        · by_contra hc; exact h1 (Or.inl hc)
        · by_contra hc; exact h1 (Or.inr (Or.inl (by omega)))
        · by_contra hc; exact h1 (Or.inr (Or.inr (Or.inl hc)))
        · by_contra hc; exact h1 (Or.inr (Or.inr (Or.inr (Or.inl (by omega)))))
        · by_contra hc; exact h1 (Or.inr (Or.inr (Or.inr (Or.inr (by omega)))))
        · by_contra hc; exact h2 hc
  · rintro ⟨h0, h1, h74, h122, h123, hcrc⟩
    have hn : ¬ (p.hdr 0 ≠ 0 ∨ p.hdr 1 > 63 ∨ p.hdr 74 ≠ 0 ∨ p.hdr 122 < 0x81
        ∨ p.hdr 123 < 0x81) := by
      rintro (h | h | h | h | h)
      · exact h h0
      · omega
      · exact h h74
      · omega
      · omega
    rw [if_neg hn, if_neg (not_not.mpr hcrc)]
    rfl

/-! ## Claim C15: the fork lengths of MacBinary II -/

/-- Claim C15, as amended: when `is_macbinary` accepts, `data_length` is the big-endian
32-bit value of `header[83..86]` and `rsrc_length` that of `header[87..90]`, each taken as
an `int32`, which is the value itself when the first of its bytes is below `0x80`; and
`Open`, when the stream is not AppleSingle, marks the file forked with offset 128 and
length `data_length`, which is the length `GetType` works with. -/
theorem is_macbinary_lengths (p : SDL_RWops) (data_length rsrc_length : Int)
    (h : (is_macbinary p).1 = some (data_length, rsrc_length)) :
    data_length
        = toInt32 (p.hdr 83 * 16777216 + p.hdr 84 * 65536 + p.hdr 85 * 256 + p.hdr 86)
      ∧ rsrc_length
        = toInt32 (p.hdr 87 * 16777216 + p.hdr 88 * 65536 + p.hdr 89 * 256 + p.hdr 90)
      ∧ (p.hdr 83 < 0x80 → data_length
          = ((p.hdr 83 * 16777216 + p.hdr 84 * 65536 + p.hdr 85 * 256 + p.hdr 86 : Nat) : Int))
      ∧ (p.hdr 87 < 0x80 → rsrc_length
          = ((p.hdr 87 * 16777216 + p.hdr 88 * 65536 + p.hdr 89 * 256 + p.hdr 90 : Nat) : Int))
      ∧ ((is_applesingle p false).1 = none
          → (unwrap p).is_forked = true ∧ (unwrap p).fork_offset = 128
            ∧ (unwrap p).fork_length = data_length ∧ file_length p = data_length) := by
  have h' := h
  rw [is_macbinary_eq] at h'
  split at h'
  · cases h'
  · split at h'
    · cases h'
    · have e1 := congrArg (fun o => o.map Prod.fst) h'
      have e2 := congrArg (fun o => o.map Prod.snd) h'
      simp only [Option.map_some', Option.some.injEq] at e1 e2
      have b84 := hdr_lt p 84
      have b85 := hdr_lt p 85
      have b86 := hdr_lt p 86
      have b88 := hdr_lt p 88
      have b89 := hdr_lt p 89
      have b90 := hdr_lt p 90
      refine ⟨e1.symm, e2.symm, ?_, ?_, ?_⟩
      · intro h83
        rw [← e1]
        unfold toInt32 wrap32
        omega
      · intro h87
        rw [← e2]
        unfold toInt32 wrap32
        omega
      · intro ha
        rcases unwrap_cases p with ⟨O, L, ha', _⟩ | ⟨_, L, R, hm, hf, ho, hl⟩ | ⟨_, hm, _⟩
        · rw [ha] at ha'
          cases ha'
        · rw [h] at hm
          cases hm
          exact ⟨hf, ho, hl, by rw [file_length_eq, hf, hl]; rfl⟩
        · rw [h] at hm
          cases hm

set_option maxRecDepth 100000 in
/-- Claim C15 at a MacBinary II file with a data fork of 16 bytes and a resource fork length
of 258. -/
theorem is_macbinary_lengths_witness :
    (is_macbinary macbinary_file).1 = some (16, 258)
      ∧ macbinary_file.hdr 83 = 0 ∧ macbinary_file.hdr 84 = 0 ∧ macbinary_file.hdr 85 = 0
      ∧ macbinary_file.hdr 86 = 16
      ∧ (16 : Int) = toInt32 (macbinary_file.hdr 83 * 16777216 + macbinary_file.hdr 84 * 65536
          + macbinary_file.hdr 85 * 256 + macbinary_file.hdr 86)
      ∧ (258 : Int) = toInt32 (macbinary_file.hdr 87 * 16777216 + macbinary_file.hdr 88 * 65536
          + macbinary_file.hdr 89 * 256 + macbinary_file.hdr 90)
      ∧ (unwrap macbinary_file).fork_offset = 128
      ∧ (unwrap macbinary_file).fork_length = 16 :=
  ⟨by decide!, by decide, by decide, by decide, by decide,
    (is_macbinary_lengths macbinary_file 16 258 (by decide!)).1,
    (is_macbinary_lengths macbinary_file 16 258 (by decide!)).2.1,
    ((is_macbinary_lengths macbinary_file 16 258 (by decide!)).2.2.2.2 (by decide)).2.1,
    ((is_macbinary_lengths macbinary_file 16 258 (by decide!)).2.2.2.2 (by decide)).2.2.1⟩

set_option maxRecDepth 100000 in
/-- Claim C15 fails in two ways.  On a file that passes both tests `is_macbinary` accepts
with data fork length 4, and the window that `Open` reports is that of the AppleSingle
entry, with length 8.  On a MacBinary II header with the bytes `80 00 00 00` for the data
fork length, the big-endian value of the bytes is `2147483648`, and `is_macbinary` returns
`-2147483648`, which `Open` stores as the length of the window. -/
theorem is_macbinary_length_not_window :
    ((is_macbinary applesingle_macbinary_file).1 = some (4, 0)
        ∧ (unwrap applesingle_macbinary_file).fork_offset = 128
        ∧ (unwrap applesingle_macbinary_file).fork_length = 8)
      ∧ ((is_macbinary top_bit_length_file).1 = some (-2147483648, 258)
        ∧ top_bit_length_file.hdr 83 * 16777216 + top_bit_length_file.hdr 84 * 65536
            + top_bit_length_file.hdr 85 * 256 + top_bit_length_file.hdr 86 = 2147483648
        ∧ (unwrap top_bit_length_file).fork_offset = 128
        ∧ (unwrap top_bit_length_file).fork_length = -2147483648) := by
  refine ⟨⟨by decide!, by decide, by decide⟩, by decide!, by decide, by decide!, by decide!⟩

/-! ## The CRC of `is_macbinary` -/

theorem and_top_bit (z : Nat) : z &&& 0x8000 ≠ 0 ↔ z.testBit 15 = true := by
  have h := Nat.and_two_pow z 15
  rw [show (2 : Nat) ^ 15 = 0x8000 by norm_num] at h
  rw [h]
  cases z.testBit 15 <;> simp

theorem testBit_mod_65536 (x i : Nat) :
    (x % 65536).testBit i = (decide (i < 16) && x.testBit i) :=
  Nat.testBit_mod_two_pow x 16 i

theorem testBit_crc_shift (z i : Nat) :
    (crc_shift z).testBit i
      = (decide (i < 16) && (xor (decide (1 ≤ i) && z.testBit (i - 1))
          (z.testBit 15 && Nat.testBit 0x1021 i))) := by
  unfold crc_shift
  by_cases h : z &&& 0x8000 ≠ 0
  · rw [if_pos h, (and_top_bit z).mp h, testBit_mod_65536]
    simp [Nat.testBit_shiftLeft]
  · rw [if_neg h, testBit_mod_65536]
    have h' : z.testBit 15 = false := by
      rw [and_top_bit] at h
      simpa using h
    rw [h']
    simp [Nat.testBit_shiftLeft]

theorem crc_shift_lt (z : Nat) : crc_shift z < 65536 := by
  unfold crc_shift
  split <;> exact Nat.mod_lt _ (by decide)

/-- One turn of the inner loop shifts the exclusive or of `data` and `crc`. -/
theorem crc_bit_xor (d c : Nat) :
    (is_macbinary.crc_bit (d, c)).1 ^^^ (is_macbinary.crc_bit (d, c)).2 = crc_shift (d ^^^ c) := by
  apply Nat.eq_of_testBit_eq
  intro i
  rw [testBit_crc_shift]
  simp only [is_macbinary.crc_bit]
  by_cases h : (d ^^^ c) &&& 0x8000 ≠ 0
  · have ht := (and_top_bit _).mp h
    rw [if_pos h, Nat.testBit_xor, testBit_mod_65536, testBit_mod_65536, ht]
    rw [Nat.testBit_xor] at ht
    simp only [Nat.testBit_xor, Nat.testBit_shiftLeft]
    cases decide (i < 16) <;> cases decide (i ≥ 1) <;> cases d.testBit (i - 1)
      <;> cases c.testBit (i - 1) <;> cases Nat.testBit 0x1021 i <;> rfl
  · have ht : (d ^^^ c).testBit 15 = false := by
      rw [and_top_bit] at h
      simpa using h
    rw [if_neg h, Nat.testBit_xor, testBit_mod_65536, testBit_mod_65536, ht]
    simp only [Nat.testBit_xor, Nat.testBit_shiftLeft]
    cases decide (i < 16) <;> cases decide (i ≥ 1) <;> cases d.testBit (i - 1)
      <;> cases c.testBit (i - 1) <;> rfl

theorem crc_bit_fst (d c : Nat) : (is_macbinary.crc_bit (d, c)).1 = (d <<< 1) % 65536 := rfl

theorem crc_bit_iterate (k : Nat) (d c : Nat) :
    (is_macbinary.crc_bit^[k] (d, c)).1 ^^^ (is_macbinary.crc_bit^[k] (d, c)).2
        = crc_shift^[k] (d ^^^ c)
      ∧ (is_macbinary.crc_bit^[k] (d, c)).1 % 65536 = (d <<< k) % 65536 := by
  induction k with
  | zero => exact ⟨rfl, rfl⟩
  | succ k ih =>
    rw [Function.iterate_succ_apply', Function.iterate_succ_apply']
    obtain ⟨ih1, ih2⟩ := ih
    generalize is_macbinary.crc_bit^[k] (d, c) = s at ih1 ih2
    obtain ⟨d', c'⟩ := s
    refine ⟨by rw [crc_bit_xor, ih1], ?_⟩
    rw [crc_bit_fst, Nat.shiftLeft_add d k 1]
    simp only at ih2
    generalize d <<< k = x at ih2 ⊢
    simp only [Nat.shiftLeft_eq, Nat.pow_one]
    omega

/-- One turn of the outer loop: the byte is added to the top of the register, which is then
shifted eight times. -/
theorem crc_byte_eq (c b : Nat) :
    is_macbinary.crc_byte c b = crc_shift^[8] (((b <<< 8) % 65536) ^^^ c) := by
  obtain ⟨h1, h2⟩ := crc_bit_iterate 8 ((b <<< 8) % 65536) c
  unfold is_macbinary.crc_byte
  have hlt : (is_macbinary.crc_bit^[8] ((b <<< 8) % 65536, c)).1 < 65536 := by
    rw [Function.iterate_succ_apply']
    exact Nat.mod_lt _ (by decide)
  have h0 : (is_macbinary.crc_bit^[8] ((b <<< 8) % 65536, c)).1 = 0 := by
    simp only [Nat.shiftLeft_eq] at h2 hlt ⊢
    omega
  rw [h0, Nat.zero_xor] at h1
  exact h1

theorem crc_shift_injective (z1 z2 : Nat) (h1 : z1 < 65536) (h2 : z2 < 65536)
    (h : crc_shift z1 = crc_shift z2) : z1 = z2 := by
  have hb : ∀ i, (crc_shift z1).testBit i = (crc_shift z2).testBit i := fun i => by rw [h]
  have htop : z1.testBit 15 = z2.testBit 15 := by
    have := hb 0
    rw [testBit_crc_shift, testBit_crc_shift] at this
    simpa using this
  apply Nat.eq_of_testBit_eq
  intro i
  rcases Nat.lt_trichotomy i 15 with hi | hi | hi
  · have := hb (i + 1)
    rw [testBit_crc_shift, testBit_crc_shift, htop] at this
    have h16 : decide (i + 1 < 16) = true := by simpa using (by omega : i + 1 < 16)
    have h1i : decide (1 ≤ i + 1) = true := by simp
    rw [h16, h1i, Nat.add_sub_cancel] at this
    simp only [Bool.true_and] at this
    exact Bool.xor_right_inj.mp this
  · rw [hi]
    exact htop
  · have e1 : z1 < 2 ^ i := Nat.lt_of_lt_of_le h1 (by
      calc 65536 = 2 ^ 16 := by norm_num
        _ ≤ 2 ^ i := Nat.pow_le_pow_right (by decide) (by omega))
    have e2 : z2 < 2 ^ i := Nat.lt_of_lt_of_le h2 (by
      calc 65536 = 2 ^ 16 := by norm_num
        _ ≤ 2 ^ i := Nat.pow_le_pow_right (by decide) (by omega))
    rw [Nat.testBit_lt_two_pow e1, Nat.testBit_lt_two_pow e2]

theorem crc_shift_iterate_lt (k z : Nat) (h : z < 65536) : crc_shift^[k] z < 65536 := by
  cases k with
  | zero => exact h
  | succ k =>
    rw [Function.iterate_succ_apply']
    exact crc_shift_lt _

theorem crc_shift_iterate_injective (k : Nat) :
    ∀ z1 z2 : Nat, z1 < 65536 → z2 < 65536 → crc_shift^[k] z1 = crc_shift^[k] z2 → z1 = z2 := by
  induction k with
  | zero => intro z1 z2 _ _ h; exact h
  | succ k ih =>
    intro z1 z2 h1 h2 h
    rw [Function.iterate_succ_apply, Function.iterate_succ_apply] at h
    exact crc_shift_injective z1 z2 h1 h2 (ih _ _ (crc_shift_lt z1) (crc_shift_lt z2) h)

theorem crc_byte_lt (c b : Nat) : is_macbinary.crc_byte c b < 65536 := by
  unfold is_macbinary.crc_byte
  rw [Function.iterate_succ_apply']
  simp only [is_macbinary.crc_bit]
  split <;> exact Nat.mod_lt _ (by decide)

/-- Two registers that differ still differ after the same byte. -/
theorem crc_byte_injective_crc (c1 c2 b : Nat) (h1 : c1 < 65536) (h2 : c2 < 65536)
    (h : is_macbinary.crc_byte c1 b = is_macbinary.crc_byte c2 b) : c1 = c2 := by
  rw [crc_byte_eq, crc_byte_eq] at h
  have hb : (b <<< 8) % 65536 < 2 ^ 16 := Nat.mod_lt _ (by decide)
  exact Nat.xor_right_injective (crc_shift_iterate_injective 8 _ _
    (Nat.xor_lt_two_pow hb h1) (Nat.xor_lt_two_pow hb h2) h)

/-- Two bytes that differ give registers that differ. -/
theorem crc_byte_injective_byte (c b1 b2 : Nat) (hc : c < 65536)
    (h : is_macbinary.crc_byte c b1 = is_macbinary.crc_byte c b2) : b1 % 256 = b2 % 256 := by
  rw [crc_byte_eq, crc_byte_eq] at h
  have hb1 : (b1 <<< 8) % 65536 < 2 ^ 16 := Nat.mod_lt _ (by decide)
  have hb2 : (b2 <<< 8) % 65536 < 2 ^ 16 := Nat.mod_lt _ (by decide)
  have e := Nat.xor_left_injective (crc_shift_iterate_injective 8 _ _
    (Nat.xor_lt_two_pow hb1 hc) (Nat.xor_lt_two_pow hb2 hc) h)
  simp only [Nat.shiftLeft_eq] at e
  omega

theorem crc_foldl_lt (l : List Nat) :
    ∀ c, c < 65536 → l.foldl is_macbinary.crc_byte c < 65536 := by
  induction l with
  | nil => intro c h; exact h
  | cons b l ih => intro c _; exact ih _ (crc_byte_lt c b)

theorem crc_foldl_ne (l : List Nat) :
    ∀ c1 c2, c1 < 65536 → c2 < 65536 → c1 ≠ c2 →
      l.foldl is_macbinary.crc_byte c1 ≠ l.foldl is_macbinary.crc_byte c2 := by
  induction l with
  | nil => intro c1 c2 _ _ h; exact h
  | cons b l ih =>
    intro c1 c2 h1 h2 h
    exact ih _ _ (crc_byte_lt c1 b) (crc_byte_lt c2 b)
      (fun e => h (crc_byte_injective_crc c1 c2 b h1 h2 e))

/-- A change of one of the bytes 0 to 123 changes the CRC. -/
theorem crc_set_ne (l : List Nat) (i v : Nat) (hi : i < 124) (hl : i < l.length)
    (hv : v % 256 ≠ l.getD i 0 % 256) :
    is_macbinary.crc (l.set i v) ≠ is_macbinary.crc l := by
  unfold is_macbinary.crc
  have hm : i < (l.take 124).length := by
    rw [List.length_take]; omega
  have e1 : (l.set i v).take 124 = (l.take 124).take i ++ v :: (l.take 124).drop (i + 1) := by
    rw [List.set_take, List.set_eq_take_append_cons_drop, if_pos hm]
  have e2 : l.take 124 = (l.take 124).take i ++ (l.take 124)[i] :: (l.take 124).drop (i + 1) := by
    conv_lhs => rw [← List.take_append_drop i (l.take 124)]
    rw [List.drop_eq_getElem_cons hm]
  have e3 : (l.take 124)[i] = l.getD i 0 := by
    rw [List.getElem_take, List.getD_eq_getElem?_getD, List.getElem?_eq_getElem hl]
    rfl
  rw [e1]
  conv_rhs => rw [e2]
  rw [List.foldl_append, List.foldl_append, List.foldl_cons, List.foldl_cons, e3]
  have hc := crc_foldl_lt ((l.take 124).take i) 0 (by decide)
  exact crc_foldl_ne _ _ _ (crc_byte_lt _ _) (crc_byte_lt _ _)
    (fun e => hv (crc_byte_injective_byte _ _ _ hc e))

theorem header_getElem? (p : SDL_RWops) (k : Nat) :
    p.header[k]? = if k < 128 then some (p.data.getD k (p.fill k) % 256) else none := by
  simp only [SDL_RWops.header, SDL_RWread, List.getElem?_map]
  split
  · rename_i h
    rw [List.getElem?_range h]
    simp [SDL_RWops.byte, SDL_RWseek]
  · rename_i h
    have h1 : (List.range 128)[k]? = none := by
      rw [List.getElem?_eq_none_iff]; simp; omega
    rw [h1]
    rfl

theorem header_length (p : SDL_RWops) : p.header.length = 128 := by
  simp [SDL_RWops.header, SDL_RWread]

theorem hdr_eq (p : SDL_RWops) (k : Nat) (h : k < 128) :
    p.hdr k = p.data.getD k (p.fill k) % 256 := by
  rw [SDL_RWops.hdr, List.getD_eq_getElem?_getD, header_getElem?, if_pos h]
  rfl

/-- The header buffer of a stream with one byte changed. -/
theorem header_set (p q : SDL_RWops) (i v : Nat) (hi : i < 128) (hl : i < p.data.length)
    (hd : q.data = p.data.set i v) (hf : q.fill = p.fill) :
    q.header = p.header.set i (v % 256) := by
  apply List.ext_getElem?
  intro k
  rw [header_getElem?, List.getElem?_set, header_getElem?, header_length, hd, hf]
  simp only [List.getD_eq_getElem?_getD, List.getElem?_set]
  by_cases hk : i = k
  · subst hk
    simp [hi, hl]
  · simp [hk]

theorem flip_byte_ne (x j : Nat) (hj : j < 8) : (x ^^^ 2 ^ j) % 256 ≠ x % 256 := by
  intro h
  have e := congrArg (fun n => Nat.testBit n j) h
  simp only at e
  rw [show (256 : Nat) = 2 ^ 8 by norm_num, Nat.testBit_mod_two_pow, Nat.testBit_mod_two_pow,
    Nat.testBit_xor, Nat.testBit_two_pow_self] at e
  simp [hj] at e

/-! ## Claim C16: one flipped bit -/

/-- Claim C16: when `is_macbinary` accepts a stream, it rejects the stream in which one bit
`j < 8` of one byte `i < 124` of the header is flipped, the other bytes, among them the CRC
field in bytes 124 and 125, being left as they are. -/
theorem is_macbinary_bit_flip (p : SDL_RWops) (i j : Nat)
    (hacc : (is_macbinary p).1.isSome = true) (hi : i < 124) (hlen : i < p.data.length)
    (hj : j < 8) :
    (is_macbinary (p.flip i j)).1 = none := by
  have hcrc : is_macbinary.crc p.header = p.hdr 124 * 256 + p.hdr 125 := by
    rw [is_macbinary_eq] at hacc
    split at hacc
    · cases hacc
    · split at hacc
      · cases hacc
      · rename_i h
        exact not_not.mp h
  have hh : (p.flip i j).header = p.header.set i ((p.data.getD i 0 ^^^ 2 ^ j) % 256) :=
    header_set p (p.flip i j) i _ (by omega) hlen rfl rfl
  have hk : ∀ k, k < 128 → k ≠ i → (p.flip i j).hdr k = p.hdr k := by
    intro k _ hne
    simp only [SDL_RWops.hdr, hh, List.getD_eq_getElem?_getD,
      List.getElem?_set_ne (fun e => hne e.symm)]
  have hx : p.header.getD i 0 = p.data.getD i 0 % 256 := by
    have := hdr_eq p i (by omega)
    rw [SDL_RWops.hdr] at this
    rw [this, List.getD_eq_getElem?_getD, List.getD_eq_getElem?_getD,
      List.getElem?_eq_getElem hlen]
    rfl
  have hne : is_macbinary.crc (p.flip i j).header ≠ is_macbinary.crc p.header := by
    rw [hh]
    refine crc_set_ne _ _ _ hi (by rw [header_length]; omega) ?_
    rw [hx, Nat.mod_mod, Nat.mod_mod]
    exact flip_byte_ne _ _ hj
  rw [is_macbinary_eq]
  split
  · rfl
  · rw [hk 124 (by decide) (by omega), hk 125 (by decide) (by omega), ← hcrc, if_pos hne]

set_option maxRecDepth 100000 in
/-- Claim C16 at a MacBinary II file, with bit 3 of byte 84 of the header flipped. -/
theorem is_macbinary_bit_flip_witness :
    (is_macbinary macbinary_file).1.isSome = true ∧ 84 < macbinary_file.data.length
      ∧ (macbinary_file.flip 84 3).data.getD 84 0 = 8
      ∧ (is_macbinary (macbinary_file.flip 84 3)).1 = none :=
  ⟨by decide!, by decide, by decide,
    is_macbinary_bit_flip macbinary_file 84 3 (by decide!) (by decide) (by decide) (by decide)⟩

/-! ## Claim C17: the window `Open` establishes -/

/-- The cursor `Open` leaves: at the fork offset when that is not negative. -/
theorem unwrap_cursor (p : SDL_RWops) (ho : 0 ≤ (unwrap p).fork_offset) :
    (unwrap p).cursor = some (unwrap p).fork_offset := by
  have ho2 := unwrap_offset_lt p
  simp only [unwrap, FileSpecifier.Open, Bool.false_eq_true, if_false] at ho ho2 ⊢
  revert ho ho2
  rcases (is_applesingle p false).1 with _ | ⟨O, L⟩
  · rcases (is_macbinary (is_applesingle p false).2).1 with _ | ⟨L, R⟩
    · simp [OpenedFile.cursor, SDL_RWseek, SDL_RWtell]
    · have e : wrap32 128 = 128 := by decide
      simp [OpenedFile.cursor, SDL_RWseek, SDL_RWtell, e]
  · intro ho ho2
    have ho' : 0 ≤ O := ho
    have hw : wrap32 O = O := wrap32_eq (by omega) ho2
    have h : ¬ (O < 0) := by omega
    simp only [OpenedFile.cursor, SDL_RWseek, SDL_RWtell, hw, Int.zero_add, h, if_false,
      Option.map_some', Int.toNat_of_nonneg ho']

theorem is_macbinary_range (p : SDL_RWops) (L R : Int) (h : (is_macbinary p).1 = some (L, R)) :
    -2147483648 ≤ L ∧ L < 2147483648 := by
  rw [is_macbinary_eq] at h
  split at h
  · cases h
  · split at h
    · cases h
    · simp only [Option.some.injEq, Prod.mk.injEq] at h
      rw [← h.1]
      exact toInt32_range _

/-- What `Open` stores in the opened file: the window of the container, if there is one. -/
theorem unwrap_window (p : SDL_RWops) :
    (container_window p = none →
        (unwrap p).is_forked = false ∧ (unwrap p).fork_offset = 0 ∧ (unwrap p).fork_length = 0)
      ∧ (∀ O L, container_window p = some (O, L) →
        (unwrap p).is_forked = true ∧ (unwrap p).fork_offset = O ∧ (unwrap p).fork_length = L) := by
  have hm := is_macbinary_cursor p (is_applesingle p false).2 (is_applesingle_same p false).1
    (is_applesingle_same p false).2
  simp only [unwrap, FileSpecifier.Open, Bool.false_eq_true, if_false]
  unfold container_window
  rw [← hm]
  rcases (is_applesingle p false).1 with _ | ⟨O, L⟩
  · rcases (is_macbinary (is_applesingle p false).2).1 with _ | ⟨L, R⟩
    · exact ⟨fun _ => ⟨rfl, rfl, rfl⟩, fun O L h => by cases h⟩
    · refine ⟨fun h => (by cases h), fun O2 L2 h => ?_⟩
      cases h
      exact ⟨rfl, rfl, rfl⟩
  · refine ⟨fun h => (by cases h), fun O2 L2 h => ?_⟩
    cases h
    exact ⟨rfl, rfl, rfl⟩

theorem container_window_range (p : SDL_RWops) (O L : Int)
    (h : container_window p = some (O, L)) :
    (-2147483648 ≤ O ∧ O < 2147483648) ∧ (-2147483648 ≤ L ∧ L < 2147483648) := by
  unfold container_window at h
  rcases ha : (is_applesingle p false).1 with _ | ⟨O', L'⟩
  · rw [ha] at h
    rcases hb : (is_macbinary p).1 with _ | ⟨L', R'⟩
    · rw [hb] at h
      cases h
    · rw [hb] at h
      simp only [Option.some.injEq, Prod.mk.injEq] at h
      rw [← h.1, ← h.2]
      exact ⟨by decide, is_macbinary_range p L' R' hb⟩
  · rw [ha] at h
    simp only [Option.some.injEq, Prod.mk.injEq] at h
    rw [← h.1, ← h.2]
    exact is_applesingle_range p false O' L' ha

/-- Claim C18, as amended: `Open` stores the window of the container as it reads it.  For a
stream that neither test accepts the file is not forked, with offset 0 and length field 0.
For a stream one of them accepts the file is forked, and the offset and the length are the
`int32` offset and length of the AppleSingle data fork entry, or 128 and the `int32` data
fork length of the MacBinary II header: each lies between `-2^31` and `2^31 - 1`.  The
descriptor has an offset and a length that are not negative and, for a forked file, sum to
at most the length of the stream, if and only if the fields of the container do. -/
theorem Open_descriptor (p : SDL_RWops) :
    (container_window p = none →
        (unwrap p).is_forked = false ∧ (unwrap p).fork_offset = 0 ∧ (unwrap p).fork_length = 0)
      ∧ (∀ O L, container_window p = some (O, L) →
        (unwrap p).is_forked = true ∧ (unwrap p).fork_offset = O ∧ (unwrap p).fork_length = L
          ∧ (-2147483648 ≤ O ∧ O < 2147483648) ∧ (-2147483648 ≤ L ∧ L < 2147483648))
      ∧ ((0 ≤ (unwrap p).fork_offset ∧ 0 ≤ (unwrap p).fork_length
          ∧ ((unwrap p).is_forked = true →
            (unwrap p).fork_offset + (unwrap p).fork_length ≤ p.data.length))
        ↔ ∀ O L, container_window p = some (O, L) →
            0 ≤ O ∧ 0 ≤ L ∧ O + L ≤ p.data.length) := by
  obtain ⟨h1, h2⟩ := unwrap_window p
  refine ⟨h1, fun O L h => ?_, ?_⟩
  · obtain ⟨a, b, c⟩ := h2 O L h
    exact ⟨a, b, c, container_window_range p O L h⟩
  · constructor
    · rintro ⟨a, b, c⟩ O L h
      obtain ⟨hf, ho, hl⟩ := h2 O L h
      rw [ho, hl] at c
      rw [ho] at a
      rw [hl] at b
      exact ⟨a, b, c hf⟩
    · intro h
      rcases hw : container_window p with _ | ⟨O, L⟩
      · obtain ⟨hf, ho, hl⟩ := h1 hw
        rw [hf, ho, hl]
        exact ⟨Int.le_refl 0, Int.le_refl 0, fun e => by cases e⟩
      · obtain ⟨hf, ho, hl⟩ := h2 O L hw
        obtain ⟨a, b, c⟩ := h O L hw
        rw [ho, hl]
        exact ⟨a, b, fun _ => c⟩

set_option maxRecDepth 100000 in
/-- Claim C18 at a MacBinary II file of 144 bytes with a data fork of 16 bytes: the
descriptor is offset 128, length 16, and `128 + 16` is the length of the stream. -/
theorem Open_descriptor_witness :
    container_window macbinary_file = some (128, 16)
      ∧ (unwrap macbinary_file).is_forked = true ∧ (unwrap macbinary_file).fork_offset = 128
      ∧ (unwrap macbinary_file).fork_length = 16
      ∧ ((128 : Int) + 16 ≤ macbinary_file.data.length) :=
  ⟨by decide!, ((Open_descriptor macbinary_file).2.1 128 16 (by decide!)).1,
    ((Open_descriptor macbinary_file).2.1 128 16 (by decide!)).2.1,
    ((Open_descriptor macbinary_file).2.1 128 16 (by decide!)).2.2.1, by decide⟩

set_option maxRecDepth 100000 in
/-- Claim C18 fails on three files.  An AppleSingle file of 131 bytes whose entry has offset
`0xFFFFFFFF` gets the offset `-1`.  An AppleSingle file of 46 bytes whose entry has offset
38 and length `0xFFFFFFFF` gets the length `-1`.  A MacBinary II header of 128 bytes with
data fork length 16 and nothing after it gets offset 128 and length 16, which sum to 144. -/
theorem Open_unchecked_fields :
    ((unwrap negative_offset_file).is_forked = true
        ∧ (unwrap negative_offset_file).fork_offset = -1
        ∧ (unwrap negative_offset_file).fork_length = 4096
        ∧ negative_offset_file.data.length = 131)
      ∧ ((unwrap negative_length_file).is_forked = true
        ∧ (unwrap negative_length_file).fork_offset = 38
        ∧ (unwrap negative_length_file).fork_length = -1)
      ∧ ((unwrap header_only_file).is_forked = true
        ∧ (unwrap header_only_file).fork_offset = 128
        ∧ (unwrap header_only_file).fork_length = 16
        ∧ header_only_file.data.length = 128) := by
  refine ⟨by decide, by decide, ?_⟩
  decide!

/-! ## Claim C20: a stream shorter than the header -/

theorem crc_congr (k l : List Nat) (h : k.take 124 = l.take 124) :
    is_macbinary.crc k = is_macbinary.crc l := by
  unfold is_macbinary.crc
  rw [h]

/-- The answer of `is_macbinary` is decided by the bytes 0 to 125 of the header buffer. -/
theorem is_macbinary_congr (p q : SDL_RWops) (h : ∀ k, k < 126 → p.hdr k = q.hdr k) :
    (is_macbinary p).1 = (is_macbinary q).1 := by
  have hc : is_macbinary.crc p.header = is_macbinary.crc q.header := by
    refine crc_congr _ _ (List.ext_getElem? (fun k => ?_))
    rw [List.getElem?_take, List.getElem?_take]
    split
    · rename_i hk
      have := h k (by omega)
      simp only [SDL_RWops.hdr, List.getD_eq_getElem?_getD] at this
      rw [header_getElem?, header_getElem?, if_pos (by omega), if_pos (by omega)] at this ⊢
      simpa using this
    · rfl
  rw [is_macbinary_eq, is_macbinary_eq, hc, h 0 (by decide), h 1 (by decide), h 74 (by decide),
    h 122 (by decide), h 123 (by decide), h 124 (by decide), h 125 (by decide),
    h 83 (by decide), h 84 (by decide), h 85 (by decide), h 86 (by decide), h 87 (by decide),
    h 88 (by decide), h 89 (by decide), h 90 (by decide)]

set_option maxRecDepth 100000 in
/-- Claim C20, the code at the failing input: of a stream that holds the first 126 bytes of
a MacBinary II header the read of 128 bytes transfers 126 and stops at the end of the
stream; whatever the last two bytes of the buffer hold, `is_macbinary` returns true, with
data fork length 16 and resource fork length 258, and `Open` marks the file forked at
offset 128. -/
theorem is_macbinary_truncated_header (fill : Nat → Nat) :
    (truncated_header_file fill).data.length = 126
      ∧ (is_macbinary (truncated_header_file fill)).2.pos = 126
      ∧ (is_macbinary (truncated_header_file fill)).1 = some (16, 258)
      ∧ (unwrap (truncated_header_file fill)).is_forked = true
      ∧ (unwrap (truncated_header_file fill)).fork_offset = 128 := by
  have hlen : (truncated_header_file fill).data.length = 126 := by
    show (macbinary_header.take 126).length = 126
    decide
  have hm : (is_macbinary (truncated_header_file fill)).1 = some (16, 258) := by
    have h0 : (is_macbinary (truncated_header_file (fun _ => 0))).1 = some (16, 258) := by
      decide!
    rw [← h0]
    refine is_macbinary_congr _ _ (fun k hk => ?_)
    rw [hdr_eq _ _ (by omega), hdr_eq _ _ (by omega)]
    have hk' : k < (macbinary_header.take 126).length := by
      rw [show (macbinary_header.take 126).length = 126 by decide]
      exact hk
    simp only [truncated_header_file, List.getD_eq_getElem?_getD, List.getElem?_eq_getElem hk',
      Option.getD_some]
  have ha : (is_applesingle (truncated_header_file fill) false).1 = none := by
    refine (is_applesingle_eq _ false).1 (fun h => ?_)
    have h4 := h.1
    rw [be32_of_bytes (truncated_header_file fill) 0 0 4 0x4E 0x61 rfl rfl rfl rfl] at h4
    exact absurd h4 (by decide)
  refine ⟨hlen, ?_, hm, ?_⟩
  · simp only [is_macbinary]
    split
    · simp [SDL_RWread, SDL_RWops.advance, SDL_RWseek, truncated_header_file]
      decide
    · split <;>
      · simp [SDL_RWread, SDL_RWops.advance, SDL_RWseek, truncated_header_file]
        decide
  · rcases unwrap_cases (truncated_header_file fill) with ⟨O, L, h, _⟩ | ⟨_, L, R, _, hf, ho, _⟩
        | ⟨_, h, _⟩
    · rw [ha] at h
      cases h
    · exact ⟨hf, ho⟩
    · rw [hm] at h
      cases h

/-! ## The CRC loop and the table -/

set_option maxRecDepth 100000 in
/-- Entry `i` of the table is byte `i` shifted eight times through the register. -/
theorem crc16_xmodem_table_eq :
    ∀ i, i < 256 → crc16_xmodem_table.getD i 0 = crc_shift^[8] (i <<< 8) := by
  decide

/-- The shift of the register is linear over the exclusive or. -/
theorem crc_shift_xor (a b : Nat) : crc_shift (a ^^^ b) = crc_shift a ^^^ crc_shift b := by
  apply Nat.eq_of_testBit_eq
  intro i
  simp only [testBit_crc_shift, Nat.testBit_xor]
  cases decide (i < 16) <;> cases decide (1 ≤ i) <;> cases a.testBit (i - 1)
    <;> cases b.testBit (i - 1) <;> cases a.testBit 15 <;> cases b.testBit 15
    <;> cases Nat.testBit 0x1021 i <;> rfl

theorem crc_shift_iterate_xor (k : Nat) :
    ∀ a b : Nat, crc_shift^[k] (a ^^^ b) = crc_shift^[k] a ^^^ crc_shift^[k] b := by
  induction k with
  | zero => intro a b; rfl
  | succ k ih =>
    intro a b
    rw [Function.iterate_succ_apply, Function.iterate_succ_apply, Function.iterate_succ_apply,
      crc_shift_xor, ih]

/-- A register below `2^15` is doubled by the shift. -/
theorem crc_shift_small (z : Nat) (h : z < 32768) : crc_shift z = 2 * z := by
  have ht : ¬ (z &&& 0x8000 ≠ 0) := by
    rw [and_top_bit, Nat.testBit_lt_two_pow (by simpa using h)]
    simp
  unfold crc_shift
  rw [if_neg ht, Nat.shiftLeft_eq]
  omega

theorem crc_shift_iterate_small (k : Nat) :
    ∀ z : Nat, z * 2 ^ k < 65536 → crc_shift^[k] z = z * 2 ^ k := by
  induction k with
  | zero => intro z _; simp
  | succ k ih =>
    intro z h
    have h2 : z * 2 ^ (k + 1) = 2 * z * 2 ^ k := by rw [Nat.pow_succ]; ring
    have hpos : 1 ≤ 2 ^ k := Nat.one_le_two_pow
    have hz : 2 * z < 65536 := by
      calc 2 * z = 2 * z * 1 := by ring
        _ ≤ 2 * z * 2 ^ k := Nat.mul_le_mul_left _ hpos
        _ < 65536 := by rw [← h2]; exact h
    rw [Function.iterate_succ_apply, crc_shift_small z (by omega), ih (2 * z) (by rw [← h2]; exact h),
      h2]

/-- A 16-bit value is its high byte and its low byte. -/
theorem high_xor_low (z : Nat) : ((z >>> 8) <<< 8) ^^^ (z % 256) = z := by
  apply Nat.eq_of_testBit_eq
  intro i
  rw [Nat.testBit_xor, Nat.testBit_shiftLeft, Nat.testBit_shiftRight,
    show (256 : Nat) = 2 ^ 8 by norm_num, Nat.testBit_mod_two_pow]
  by_cases h : i < 8
  · have h' : ¬ i ≥ 8 := by omega
    simp [h, h']
  · have h' : i ≥ 8 := by omega
    have e : 8 + (i - 8) = i := by omega
    simp [h, h', e]

theorem shiftLeft_xor_8 (a b : Nat) : (a ^^^ b) <<< 8 = (a <<< 8) ^^^ (b <<< 8) := by
  apply Nat.eq_of_testBit_eq
  intro i
  simp only [Nat.testBit_xor, Nat.testBit_shiftLeft]
  cases decide (i ≥ 8) <;> rfl

/-- One turn of the outer loop of the code is the step of the table-driven CRC. -/
theorem crc_byte_eq_xmodem (c b : Nat) (hc : c < 65536) (hb : b < 256) :
    is_macbinary.crc_byte c b = crc16_xmodem_byte c b := by
  have hhi : c >>> 8 < 2 ^ 8 := by
    rw [Nat.shiftRight_eq_div_pow]
    omega
  have hidx : (c >>> 8) ^^^ b < 256 := Nat.xor_lt_two_pow hhi (by simpa using hb)
  have hB : (b <<< 8) % 65536 = b <<< 8 := by
    rw [Nat.shiftLeft_eq]
    omega
  have hz : (b <<< 8) ^^^ c = (((c >>> 8) ^^^ b) <<< 8) ^^^ (c % 256) := by
    conv_lhs => rw [← high_xor_low c]
    rw [shiftLeft_xor_8, ← Nat.xor_assoc, Nat.xor_comm (b <<< 8)]
  have hlow : crc_shift^[8] (c % 256) = (c <<< 8) % 65536 := by
    rw [crc_shift_iterate_small 8 _ (by omega), Nat.shiftLeft_eq]
    omega
  rw [crc_byte_eq, hB, hz, crc_shift_iterate_xor, ← crc16_xmodem_table_eq _ hidx, hlow,
    Nat.xor_comm]
  rfl

/-! ## Claim C21: the CRC is CRC-16/XMODEM -/

/-- Claim C21: for every sequence of bytes the loop of the code, one turn of the outer loop
per byte from the register 0, gives what the table-driven CRC-16/XMODEM gives; and the CRC
`is_macbinary` computes over `header[0..123]` is the CRC-16/XMODEM of these 124 bytes. -/
theorem crc_eq_xmodem (bytes : List Nat) (h : ∀ b ∈ bytes, b < 256) :
    bytes.foldl is_macbinary.crc_byte 0 = crc16_xmodem bytes
      ∧ is_macbinary.crc bytes = crc16_xmodem (bytes.take 124) := by
  have key : ∀ (l : List Nat), (∀ b ∈ l, b < 256) → ∀ c, c < 65536 →
      l.foldl is_macbinary.crc_byte c = l.foldl crc16_xmodem_byte c := by
    intro l
    induction l with
    | nil => intro _ c _; rfl
    | cons b l ih =>
      intro hl c hc
      rw [List.foldl_cons, List.foldl_cons,
        ← crc_byte_eq_xmodem c b hc (hl b (List.mem_cons_self b l))]
      exact ih (fun x hx => hl x (List.mem_cons_of_mem b hx)) _ (crc_byte_lt c b)
  exact ⟨key bytes h 0 (by decide),
    key (bytes.take 124) (fun b hb => h b (List.mem_of_mem_take hb)) 0 (by decide)⟩

set_option maxRecDepth 100000 in
/-- Claim C21 at the nine bytes `123456789`, whose CRC-16/XMODEM is `0x31C3`. -/
theorem crc_eq_xmodem_witness :
    (∀ b ∈ [0x31, 0x32, 0x33, 0x34, 0x35, 0x36, 0x37, 0x38, 0x39], b < 256)
      ∧ crc16_xmodem [0x31, 0x32, 0x33, 0x34, 0x35, 0x36, 0x37, 0x38, 0x39] = 0x31C3
      ∧ [0x31, 0x32, 0x33, 0x34, 0x35, 0x36, 0x37, 0x38, 0x39].foldl is_macbinary.crc_byte 0
        = crc16_xmodem [0x31, 0x32, 0x33, 0x34, 0x35, 0x36, 0x37, 0x38, 0x39] :=
  ⟨by decide, by decide,
    (crc_eq_xmodem [0x31, 0x32, 0x33, 0x34, 0x35, 0x36, 0x37, 0x38, 0x39] (by decide)).1⟩

/-! ## Claim C22: streams that pass both tests -/

/-- The first four bytes of the header buffer are the bytes of the first word read. -/
theorem be32_zero_eq_hdr (p : SDL_RWops) :
    p.be32 0 = p.hdr 0 * 16777216 + p.hdr 1 * 65536 + p.hdr 2 * 256 + p.hdr 3 := by
  rw [hdr_eq p 0 (by decide), hdr_eq p 1 (by decide), hdr_eq p 2 (by decide),
    hdr_eq p 3 (by decide)]
  simp [SDL_RWops.be32, SDL_ReadBE32, SDL_RWops.byte]

/-- Claim C22, as amended: a stream that `is_applesingle`, asked for the data fork, and
`is_macbinary` both accept starts with the AppleSingle magic and version, so that as a
MacBinary II header it has `header[0] = 0` and `header[1] = 5`; it passes the byte tests and
the CRC test of MacBinary II; and `Open`, which tests AppleSingle first, gives it the window
of the AppleSingle entry. -/
theorem accepted_by_both (p : SDL_RWops) (ha : (is_applesingle p false).1.isSome = true)
    (hm : (is_macbinary p).1.isSome = true) :
    p.has_magic
      ∧ (p.hdr 0 = 0 ∧ p.hdr 1 = 5 ∧ p.hdr 2 = 0x16 ∧ p.hdr 3 = 0)
      ∧ (p.hdr 74 = 0 ∧ 0x81 ≤ p.hdr 122 ∧ 0x81 ≤ p.hdr 123
        ∧ is_macbinary.crc p.header = p.hdr 124 * 256 + p.hdr 125)
      ∧ ∃ O L, (is_applesingle p false).1 = some (O, L) ∧ (unwrap p).is_forked = true
          ∧ (unwrap p).fork_offset = O ∧ (unwrap p).fork_length = L := by
  have hmagic : p.has_magic := by
    by_contra hc
    rw [(is_applesingle_eq p false).1 hc] at ha
    cases ha
  have hbytes : p.hdr 0 = 0 ∧ p.hdr 1 = 5 ∧ p.hdr 2 = 0x16 ∧ p.hdr 3 = 0 := by
    have h := hmagic.1
    rw [be32_zero_eq_hdr] at h
    have b0 := hdr_lt p 0
    have b1 := hdr_lt p 1
    have b2 := hdr_lt p 2
    have b3 := hdr_lt p 3
    omega
  refine ⟨hmagic, hbytes, ?_, ?_⟩
  · rw [is_macbinary_eq] at hm
    split at hm
    · cases hm
    · rename_i h1
      split at hm
      · cases hm
      · rename_i h2
        refine ⟨?_, ?_, ?_, not_not.mp h2⟩
        · by_contra hc; exact h1 (Or.inr (Or.inr (Or.inl hc)))
        · by_contra hc; exact h1 (Or.inr (Or.inr (Or.inr (Or.inl (by omega)))))
        · by_contra hc; exact h1 (Or.inr (Or.inr (Or.inr (Or.inr (by omega)))))
  · rcases unwrap_cases p with ⟨O, L, h, hf, ho, hl⟩ | ⟨h, _⟩ | ⟨h, _⟩
    · exact ⟨O, L, h, hf, ho, hl⟩
    · rw [h] at ha
      cases ha
    · rw [h] at ha
      cases ha

set_option maxRecDepth 100000 in
/-- Claim C22 at a file of 136 bytes that passes both tests: its bytes 0 to 3 are
`00 05 16 00`, and the window `Open` gives it is offset 128, length 8. -/
theorem accepted_by_both_witness :
    (is_applesingle applesingle_macbinary_file false).1.isSome = true
      ∧ (is_macbinary applesingle_macbinary_file).1.isSome = true
      ∧ applesingle_macbinary_file.has_magic
      ∧ applesingle_macbinary_file.hdr 1 = 5
      ∧ applesingle_macbinary_file.hdr 122 = 0x81 :=
  ⟨by decide, by decide!,
    (accepted_by_both applesingle_macbinary_file (by decide) (by decide!)).1,
    (accepted_by_both applesingle_macbinary_file (by decide) (by decide!)).2.1.2.1,
    by decide⟩

set_option maxRecDepth 100000 in
/-- Claim C22 fails on a file of 136 bytes: `is_applesingle` accepts it, with a data fork of
8 bytes at offset 128, and `is_macbinary` accepts it, with a data fork of 4 bytes. -/
theorem signatures_overlap :
    applesingle_macbinary_file.data.length = 136
      ∧ (is_applesingle applesingle_macbinary_file false).1 = some (128, 8)
      ∧ (is_macbinary applesingle_macbinary_file).1 = some (4, 0) := by
  refine ⟨by decide, by decide, ?_⟩
  decide!

/-! ## Claim C23: a directory offset with the top bit set -/

theorem seek_set_eq (q : SDL_RWops) (z : Int) (h1 : -2147483648 ≤ z) (h2 : z < 2147483648) :
    SDL_RWseek q z SEEK_SET = if z < 0 then (-1, q) else (z, { q with pos := z.toNat }) := by
  have hw : wrap32 z = z := wrap32_eq h1 h2
  simp only [SDL_RWseek, hw, Int.zero_add]

/-- Claim C24, as amended: on an open file `GetPosition` returns true and reports the cursor
of the stream less `fork_offset`; for `x` with `x + fork_offset` in the range of `int`,
`SetPosition(x)` returns true exactly when the seek to `x + fork_offset` succeeds, which is
when `x + fork_offset` is not negative, and then the cursor of the stream is
`x + fork_offset` and a `GetPosition` that follows reports `x`; on a file that is not open
both return false and leave the object, and the variable `Position`, as they were. -/
theorem position_in_window (o : OpenedFile) (x y : Int)
    (hlo : -2147483648 ≤ x + o.fork_offset) (hhi : x + o.fork_offset < 2147483648) :
    (∀ q, o.f = some q →
        (o.GetPosition y).1 = true ∧ (o.GetPosition y).2.1 = SDL_RWtell q - o.fork_offset
          ∧ ((o.SetPosition x).1 = true ↔ 0 ≤ (SDL_RWseek q (x + o.fork_offset) SEEK_SET).1)
          ∧ ((o.SetPosition x).1 = true ↔ 0 ≤ x + o.fork_offset)
          ∧ ((o.SetPosition x).1 = true →
              (o.SetPosition x).2.cursor = some (x + o.fork_offset)
                ∧ (o.SetPosition x).2.fork_offset = o.fork_offset
                ∧ ((o.SetPosition x).2.GetPosition y).1 = true
                ∧ ((o.SetPosition x).2.GetPosition y).2.1 = x))
      ∧ (o.f = none →
          o.SetPosition x = (false, o) ∧ o.GetPosition y = (false, y, o)) := by
  constructor
  · intro q hq
    have hseek := seek_set_eq q (x + o.fork_offset) hlo hhi
    refine ⟨by simp [OpenedFile.GetPosition, hq], by simp [OpenedFile.GetPosition, hq], ?_, ?_, ?_⟩
    · by_cases h : x + o.fork_offset < 0
      · rw [if_pos h] at hseek
        simp [OpenedFile.SetPosition, hq, hseek, EINVAL]
      · rw [if_neg h] at hseek
        simp only [OpenedFile.SetPosition, hq, hseek]
        simp
        omega
    · by_cases h : x + o.fork_offset < 0
      · rw [if_pos h] at hseek
        simp [OpenedFile.SetPosition, hq, hseek, EINVAL]
        omega
      · rw [if_neg h] at hseek
        simp only [OpenedFile.SetPosition, hq, hseek]
        simp
        omega
    · intro hs
      by_cases h : x + o.fork_offset < 0
      · rw [if_pos h] at hseek
        simp [OpenedFile.SetPosition, hq, hseek, EINVAL] at hs
      · rw [if_neg h] at hseek
        have hn : 0 ≤ x + o.fork_offset := by omega
        have hw : wrap32 (x + o.fork_offset) = x + o.fork_offset := wrap32_eq hlo hhi
        simp only [OpenedFile.SetPosition, hq, hseek, OpenedFile.cursor,
          OpenedFile.GetPosition, SDL_RWtell, Option.map_some', Int.toNat_of_nonneg hn, hw]
        refine ⟨trivial, trivial, trivial, ?_⟩
        omega
  · intro hq
    simp [OpenedFile.SetPosition, OpenedFile.GetPosition, hq]

set_option maxRecDepth 100000 in
/-- Claim C24 at a MacBinary II file, whose fork offset is 128: `SetPosition(4)` puts the
cursor of the stream at 132 and `GetPosition` then reports 4; and at an object without a
stream. -/
theorem position_in_window_witness :
    (-2147483648 ≤ 4 + opened_macbinary_file.fork_offset
        ∧ 4 + opened_macbinary_file.fork_offset < 2147483648)
      ∧ (unwrap macbinary_file).fork_offset = opened_macbinary_file.fork_offset
      ∧ (unwrap macbinary_file).cursor = opened_macbinary_file.cursor
      ∧ (opened_macbinary_file.SetPosition 4).1 = true
      ∧ (opened_macbinary_file.SetPosition 4).2.cursor = some 132
      ∧ ((opened_macbinary_file.SetPosition 4).2.GetPosition 0).2.1 = 4
      ∧ OpenedFile.new.SetPosition 4 = (false, OpenedFile.new)
      ∧ OpenedFile.new.GetPosition 7 = (false, 7, OpenedFile.new) :=
  have h := (position_in_window opened_macbinary_file 4 0 (by decide) (by decide)).1 _ rfl
  have hs : (opened_macbinary_file.SetPosition 4).1 = true := h.2.2.2.1.mpr (by decide)
  ⟨⟨by decide, by decide⟩, by decide!, by decide!, hs, (h.2.2.2.2 hs).1, (h.2.2.2.2 hs).2.2.2,
    ((position_in_window OpenedFile.new 4 7 (by decide) (by decide)).2 rfl).1,
    ((position_in_window OpenedFile.new 4 7 (by decide) (by decide)).2 rfl).2⟩

set_option maxRecDepth 100000 in
/-- Claim C24 fails at a position that is no `int`: on the plain file `scenario_file`,
opened with fork offset 0, `SetPosition(4294967301)` returns true and leaves the cursor of
the stream at position 5, and the `GetPosition` that follows reports 5. -/
theorem SetPosition_past_int :
    (unwrap scenario_file).fork_offset = 0
      ∧ ((unwrap scenario_file).SetPosition 4294967301).1 = true
      ∧ ((unwrap scenario_file).SetPosition 4294967301).2.cursor = some 5
      ∧ (((unwrap scenario_file).SetPosition 4294967301).2.GetPosition 0).1 = true
      ∧ (((unwrap scenario_file).SetPosition 4294967301).2.GetPosition 0).2.1 = 5 := by
  decide

end AlephOne
